import Mathlib

/-!
Verification development for the CasADi code-generation engine
(src/casadi/core/code_generator.cpp) and the custom IO scheme
(src/symbolic/fx/io_scheme_internal.cpp).

The C++ code is shallowly embedded: member functions become Lean
functions on explicit state records, C++ streams become appended
strings (or lists of appended chunks where provenance matters),
`std::set`/`std::map`/`std::multimap` become lists whose membership
structure mirrors the container (iteration order of the sorted
containers is never relevant to the properties below), and
`casadi_error`/`casadi_assert` failures become `Except.error`.
-/

namespace CasadiCG

/-! ## Constant pools

`CodeGenerator::get_constant` (code_generator.cpp lines 566-586 for
`std::vector<double>`, lines 588-609 for `std::vector<int>`).  Both
overloads run the identical algorithm over their own pool
(`double_constants_`/`added_double_constants_` resp.
`integer_constants_`/`added_integer_constants_`), differing only in the
element type and in the hash function (lines 546-564), which mixes raw
machine words and is therefore kept abstract here (`hashFn`).  The pool
is generic in the element type `α`, covering both overloads. -/

/-- State of one constant pool: `double_constants_`/`integer_constants_`
(the payload store, indexed by id) together with
`added_double_constants_`/`added_integer_constants_`
(a `std::multimap<size_t, size_t>` from hash to id, modelled as the list
of its (hash, id) pairs; C++11 multimap insertion keeps equivalent keys
in insertion order, so scanning the list mirrors `equal_range`). -/
structure ConstPool (α : Type) where
  constants : List (List α)
  added : List (Nat × Nat)
deriving DecidableEq

/-- The `equal_range` bucket scan of `get_constant`: return the id of the
first already-added entry whose hash matches and whose payload compares
equal (`if (equal(v, double_constants_[i->second])) return i->second;`). -/
def poolFind {α : Type} [DecidableEq α] (consts : List (List α)) (h : Nat) (v : List α) :
    List (Nat × Nat) → Option Nat
  | [] => none
  | e :: rest =>
    if e.1 = h ∧ consts.getD e.2 [] = v then some e.2 else poolFind consts h v rest

/-- `CodeGenerator::get_constant(v, allow_adding)` (lines 566-586 / 588-609):
hash the payload, scan the bucket for an element-wise-equal entry and
return its id; otherwise append a fresh entry when `allow_adding`, else
fail with `casadi_error("Constant not found")`. -/
def get_constant {α : Type} [DecidableEq α] (hashFn : List α → Nat)
    (p : ConstPool α) (v : List α) (allow_adding : Bool) : Except String (Nat × ConstPool α) :=
  match poolFind p.constants (hashFn v) v p.added with
  | some i => .ok (i, p)
  | none =>
    if allow_adding then
      .ok (p.constants.length,
        ⟨p.constants ++ [v], p.added ++ [(hashFn v, p.constants.length)]⟩)
    else
      .error "Constant not found"

/-- Run a sequence of interning calls (`get_constant` with
`allow_adding = true`); used to express "unrelated insertions between
two calls".  The error branch is unreachable for `allow_adding = true`. -/
def internAll {α : Type} [DecidableEq α] (hashFn : List α → Nat) (p : ConstPool α) :
    List (List α) → ConstPool α
  | [] => p
  | v :: vs =>
    internAll hashFn
      (match get_constant hashFn p v true with
       | .ok r => r.2
       | .error _ => p) vs

/-- Pool well-formedness, maintained by `get_constant`: every index in
the hash multimap is valid and keyed by the hash of its payload, every
stored payload is indexed by the multimap under its hash, and no two
stored payloads are element-wise equal. -/
def PoolWF {α : Type} [DecidableEq α] (hashFn : List α → Nat) (p : ConstPool α) : Prop :=
  (∀ e ∈ p.added, e.2 < p.constants.length ∧ hashFn (p.constants.getD e.2 []) = e.1) ∧
  (∀ i, i < p.constants.length → (hashFn (p.constants.getD i []), i) ∈ p.added) ∧
  p.constants.Nodup

/-! ## Custom IO scheme

`IOSchemeCustomInternal` (io_scheme_internal.cpp lines 71-121).  The
`std::map<std::string, int> entrymap_` is modelled as an association
list with overwrite-on-assign semantics; only `find` is ever applied to
it, so the sorted iteration order of `std::map` is irrelevant. -/

/-- Assignment `m[k] = v` on a `std::map` modelled as an association
list: overwrite the existing binding or append a new one. -/
def mapAssign (m : List (String × Int)) (k : String) (v : Int) : List (String × Int) :=
  if (m.find? (fun e => e.1 = k)).isSome then
    m.map (fun e => if e.1 = k then (k, v) else e)
  else m ++ [(k, v)]

/-- Lookup `m.find(k)` on the modelled `std::map`. -/
def lookupMap (m : List (String × Int)) (k : String) : Option Int :=
  (m.find? (fun e => e.1 = k)).map (fun e => e.2)

/-- The constructor loop (lines 72-74):
`for (i = 0; i < entries.size(); ++i) entrymap_[entries[i]] = i;`. -/
def buildEntryMap (m : List (String × Int)) (i : Nat) : List String → List (String × Int)
  | [] => m
  | e :: rest => buildEntryMap (mapAssign m e (Int.ofNat i)) (i + 1) rest

/-- `IOSchemeCustomInternal`: the stored entry list and the
name-to-index map built by the constructor. -/
structure IOSchemeCustomInternal where
  entries : List String
  entrymap : List (String × Int)
deriving DecidableEq

/-- `IOSchemeCustomInternal::IOSchemeCustomInternal` (lines 71-75). -/
def mkIOSchemeCustom (entries : List String) : IOSchemeCustomInternal :=
  ⟨entries, buildEntryMap [] 0 entries⟩

/-- `IOSchemeCustomInternal::size` (lines 119-121). -/
def IOSchemeCustomInternal.size (sch : IOSchemeCustomInternal) : Nat :=
  sch.entries.length

/-- `IOSchemeCustomInternal::entryNames` (lines 81-88): comma-separated
entry names. -/
def IOSchemeCustomInternal.entryNames (sch : IOSchemeCustomInternal) : String :=
  String.intercalate ", " sch.entries

/-- `IOSchemeCustomInternal::entry(i)` (lines 90-93): bound-checked
access, failing via `casadi_assert_message` outside `[0, size())`. -/
def IOSchemeCustomInternal.entry (sch : IOSchemeCustomInternal) (i : Int) :
    Except String String :=
  if 0 ≤ i ∧ i < (sch.entries.length : Int) then .ok (sch.entries.getD i.toNat "")
  else .error ("customIO::entry(): requesting entry for index " ++ toString i
    ++ ", but IOScheme is only length " ++ toString sch.entries.length)

/-- `IOSchemeCustomInternal::index(name)` (lines 113-117): map lookup,
failing via `casadi_assert_message` when the name is absent. -/
def IOSchemeCustomInternal.index (sch : IOSchemeCustomInternal) (name : String) :
    Except String Int :=
  match lookupMap sch.entrymap name with
  | some v => .ok v
  | none => .error ("customIO::index(): entry '" ++ name
      ++ "' not available. Available entries are " ++ sch.entryNames)

/-! ## Includes and external declarations

`CodeGenerator::add_include` (lines 487-507) and
`CodeGenerator::add_external` (lines 517-519).  `added_includes_` and
`added_externals_` are `std::set<std::string>`; they are modelled as
lists in insertion order, since only membership affects the behaviour
claimed (the sets' sorted iteration order matters only to `dump`). -/

/-- The include/external bookkeeping slice of the `CodeGenerator` state:
`added_includes_`, the `includes` stream, and `added_externals_`. -/
structure IncludeState where
  added_includes : List String
  includes : String
  added_externals : List String
deriving DecidableEq

/-- `CodeGenerator::add_include(new_include, relative_path, use_ifdef)`
(lines 487-507): quick return if the text was already registered,
otherwise register it and print the (optionally `#ifdef`-guarded)
include line to the `includes` section. -/
def add_include (s : IncludeState) (new_include : String) (relative_path : Bool)
    (use_ifdef : String) : IncludeState :=
  if new_include ∈ s.added_includes then s
  else
    { s with
      added_includes := s.added_includes ++ [new_include],
      includes := s.includes
        ++ (if use_ifdef ≠ "" then "#ifdef " ++ use_ifdef ++ "\n" else "")
        ++ (if relative_path then "#include \"" ++ new_include ++ "\"\n"
            else "#include <" ++ new_include ++ ">\n")
        ++ (if use_ifdef ≠ "" then "#endif\n" else "") }

/-- `CodeGenerator::add_external(new_external)` (lines 517-519):
`added_externals_.insert(new_external)`; inserting an element already
present leaves a `std::set` unchanged. -/
def add_external (s : IncludeState) (new_external : String) : IncludeState :=
  if new_external ∈ s.added_externals then s
  else { s with added_externals := s.added_externals ++ [new_external] }

/-! ## Rendering one double constant

`CodeGenerator::constant(double)` (lines 761-781).  An IEEE double is
modelled as NaN, a signed infinity, or a finite rational value; the
`std::scientific`/`setprecision(digits10 + 1)` formatting of the
non-integral branch is floating-point textual formatting and is kept
abstract (`sci`).  The C++ `int v_int(v)` truncates toward zero, here
`Int.tdiv` on the exact value (the conversion is undefined in C++ for
values outside `int` range; the model uses the unbounded integer). -/

/-- A C `double` as consumed by `CodeGenerator::constant(double)`. -/
inductive CDouble where
  | nan
  | inf (neg : Bool)
  | fin (q : ℚ)

/-- `CodeGenerator::constant(double)` (lines 761-781): named literals
for NaN and the infinities; `v_int << "."` when truncation to int
reproduces the value; otherwise maximal-precision scientific notation. -/
def constant_double (sci : ℚ → String) : CDouble → String
  | .nan => "NAN"
  | .inf neg => (if neg then "-" else "") ++ "INFINITY"
  | .fin q =>
    let v_int : Int := q.num.tdiv q.den
    if (v_int : ℚ) = q then toString v_int ++ "."
    else sci q

/-! ## Streaming emitter with brace-driven indentation

`CodeGenerator::print_formatted` (lines 974-998) and
`CodeGenerator::operator<<(const string&)` (lines 1000-1019).  The
state slice is `buffer`, `newline_`, `current_indent_` and the
configured `indent_` width.  Brace characters are written `'\x7b'` /
`'\x7d'` (`{` / `}`). -/

/-- The emitter slice of the `CodeGenerator` state: the staging
`buffer` stream, the `newline_` flag, the running indentation depth
`current_indent_` and the option-configured width `indent_`. -/
structure EmitState where
  buffer : String
  newline_ : Bool
  current_indent_ : Nat
  indent_ : Nat
deriving DecidableEq

/-- `indent()`: one level deeper (declared in code_generator.hpp;
`current_indent_++`). -/
def indent (st : EmitState) : EmitState :=
  { st with current_indent_ := st.current_indent_ + 1 }

/-- Modelled from the spec: `unindent()` is declared in
code_generator.hpp, which is not under src/.  Spec §7 lists "an
indentation underflow (closing beyond zero depth)" among the failures
surfaced as structured errors, so closing at depth zero reports an
error instead of wrapping or clamping; otherwise `current_indent_--`. -/
def unindent (st : EmitState) : Except String EmitState :=
  if st.current_indent_ = 0 then .error "Indentation underflow"
  else .ok { st with current_indent_ := st.current_indent_ - 1 }

/-- `CodeGenerator::print_formatted(s)` (lines 974-998): quick return on
empty input; at a line start, check `current_indent_ + shift >= 0`
(shift is -1 when the fragment begins with a closing brace) and prefix
`indent_ * (current_indent_ + shift)` spaces; append the fragment; then
scan it character by character, adjusting the depth at each brace (the
scan does not distinguish braces inside string or comment content). -/
def print_formatted (st : EmitState) (s : String) : Except String EmitState :=
  if s = "" then .ok st
  else do
    let st1 ←
      if st.newline_ then
        if (st.current_indent_ : Int) + (if s.data.head? = some '\x7d' then -1 else 0) < 0 then
          .error "assertion failed: current_indent_+shift>=0"
        else
          .ok { st with
            buffer := st.buffer ++
              String.mk (List.replicate (st.indent_ * ((st.current_indent_ : Int) +
                (if s.data.head? = some '\x7d' then -1 else 0)).toNat) ' '),
            newline_ := false }
      else .ok st
    let st2 := { st1 with buffer := st1.buffer ++ s }
    s.data.foldlM
      (fun acc c =>
        if c = '\x7b' then .ok (indent acc)
        else if c = '\x7d' then unindent acc
        else .ok acc)
      st2

/-- The newline loop of `CodeGenerator::operator<<(const string&)`
(lines 1000-1019), acting on the character list of the argument: print
the fragment before the first newline through `print_formatted`, append
the newline directly to the buffer, set `newline_`, and continue; the
final fragment (with no trailing newline) is printed last. -/
def emitChars (st : EmitState) (l : List Char) : Except String EmitState :=
  let seg := l.takeWhile (fun c => c ≠ '\n')
  match h : l.dropWhile (fun c => c ≠ '\n') with
  | [] => print_formatted st (String.mk seg)
  | _ :: rest => do
    let st1 ← print_formatted st (String.mk seg)
    emitChars { st1 with buffer := st1.buffer ++ "\n", newline_ := true } rest
termination_by l.length
decreasing_by
  have hlen : (l.dropWhile (fun c => c ≠ '\n')).length ≤ l.length := by
    exact (List.dropWhile_sublist _).length_le
  have : (l.dropWhile (fun c => c ≠ '\n')).length = rest.length + 1 := by rw [h]; rfl
  omega

/-- `CodeGenerator::operator<<(const string&)` (lines 1000-1019). -/
def emitStr (st : EmitState) (s : String) : Except String EmitState :=
  emitChars st s.data

/-- The consistency check at the top of `CodeGenerator::dump` (line
328): `casadi_assert_dev(current_indent_ == 0)`. -/
def dump_consistency (st : EmitState) : Prop :=
  st.current_indent_ = 0

/-! ## Shorthands

`CodeGenerator::shorthand(name, allow_adding)` (lines 526-532).
`added_shorthands_` is a `std::set<std::string>`, modelled as a list in
insertion order (only membership is relevant here).  The call sites
modelled below (`add_dependency` line 124 and `sanitize_source` line
1087) both use `allow_adding = true` — the header's default for the
mutating overload — for which the `casadi_assert` cannot fire, so the
function is total. -/

/-- `CodeGenerator::shorthand(name, true)` (lines 526-532): insert the
name into `added_shorthands_` and return `"casadi_" + name`. -/
def shorthandAdd (shs : List String) (name : String) : List String × String :=
  (if name ∈ shs then shs else shs ++ [name], "casadi_" ++ name)

/-! ## Registering function dependencies

`CodeGenerator::add_dependency` (lines 119-152).  A `Function` is an
external collaborator: a shared-pointer handle compared by identity
(`e.f == f`), with declaration/body/refcount code-generation callbacks
that emit text through the `CodeGenerator`.  It is modelled as an
identity token plus the texts its callbacks emit; the body callback
receives the assigned name (`f->codegen(*this, fname)`). -/

/-- An external `Function` unit: `fid` models pointer identity, the
remaining fields model the text its code-generation callbacks push
through `operator<<`. -/
structure Fn where
  fid : Nat
  decl_src : String
  body_src : String → String
  has_refcount : Bool
  incref_src : String
  decref_src : String

/-- The state slice touched by `add_dependency`: the emitter buffer,
the `body` section, `added_functions_` and `added_shorthands_`. -/
structure DepState where
  emit : EmitState
  body : String
  added_functions : List (Fn × String)
  added_shorthands : List String

/-- `CodeGenerator::add_dependency(f)` (lines 119-152): quick return of
the existing name if `f` is already registered (identity comparison);
otherwise assign `shorthand("f" + str(added_functions_.size()))`,
append to `added_functions_`, run the declaration and body callbacks
(and the refcount wrappers when enabled), and flush the buffer into the
body section. -/
def add_dependency (s : DepState) (f : Fn) : Except String (String × DepState) := do
  match s.added_functions.find? (fun e => e.1.fid = f.fid) with
  | some e => return (e.2, s)
  | none =>
    let sh := shorthandAdd s.added_shorthands ("f" ++ toString s.added_functions.length)
    let fname := sh.2
    let s1 : DepState :=
      { s with added_shorthands := sh.1,
               added_functions := s.added_functions ++ [(f, fname)] }
    let e1 ← emitStr s1.emit f.decl_src
    let e2 ← emitStr e1 (f.body_src fname)
    let e3 ←
      if f.has_refcount then do
        let a1 ← emitStr e2 ("void " ++ fname ++ "_incref(void) \x7b\n")
        let a2 ← emitStr a1 f.incref_src
        let a3 ← emitStr a2 "\x7d\n\n"
        let a4 ← emitStr a3 ("void " ++ fname ++ "_decref(void) \x7b\n")
        let a5 ← emitStr a4 f.decref_src
        emitStr a5 "\x7d\n\n"
      else .ok e2
    return (fname,
      { s1 with emit := { e3 with buffer := "" }, body := s1.body ++ e3.buffer })

/-! ## Template sanitization

`CodeGenerator::sanitize_source` (lines 1045-1135).  Lines are
processed as character lists; `std::getline`, `std::string::find`,
`substr`, `erase` and `find_last_not_of` are modelled by the list
helpers below. -/

/-- `std::string::find(pat)` on character lists: index of the first
position where `pat` occurs as a contiguous sublist (like C++ `find`,
the empty pattern matches at position 0). -/
def findSub? (pat : List Char) : List Char → Option Nat
  | [] => if pat = [] then some 0 else none
  | c :: cs =>
    if pat.isPrefixOf (c :: cs) then some 0
    else (findSub? pat cs).map (fun n => n + 1)

/-- `std::string::find(pat, start)`. -/
def strFind (l : List Char) (pat : List Char) (start : Nat) : Option Nat :=
  (findSub? pat (l.drop start)).map (fun n => n + start)

/-- `std::string::find_last_not_of(' ')`. -/
def findLastNotSpace (l : List Char) : Option Nat :=
  (l.reverse.findIdx? (fun c => c ≠ ' ')).map (fun k => l.length - 1 - k)

/-- The replacement loop of `sanitize_source` (lines 1120-1126) for one
recorded pair: find the next occurrence of `pat`, splice in `sub`, and
resume searching after the spliced text (so a replacement is never
rescanned).  C++ `find` of an empty pattern makes the loop in the
source diverge; the guard makes the empty pattern a no-op here (no
template ever registers one). -/
def replaceAll (pat sub : List Char) : List Char → List Char
  | [] => []
  | c :: cs =>
    if pat ≠ [] ∧ pat.isPrefixOf (c :: cs) then
      sub ++ replaceAll pat sub ((c :: cs).drop pat.length)
    else
      c :: replaceAll pat sub cs
termination_by l => l.length
decreasing_by
  · rename_i hcond
    have hpat : pat ≠ [] := hcond.1
    have : 1 ≤ pat.length := by
      cases pat with
      | nil => exact absurd rfl hpat
      | cons a as => simp
    simp only [List.length_drop, List.length_cons]
    omega
  · simp

/-- Apply the recorded substitutions in reverse-registration order
(`for (auto&& it = rep.rbegin(); it != rep.rend(); ++it)`,
lines 1119-1126): `List.foldr` applies the last-registered pair first. -/
def applyRep (rep : List (List Char × List Char)) (line : List Char) : List Char :=
  rep.foldr (fun pr l => replaceAll pr.1 pr.2 l) line

/-- `std::getline` over an `istringstream` (lines 1066-1068): split the
source at newline characters; a trailing newline does not produce a
final empty line. -/
def splitLines (l : List Char) : List (List Char) :=
  if l = [] then []
  else
    (l.takeWhile (fun c => c ≠ '\n')) ::
      match h : l.dropWhile (fun c => c ≠ '\n') with
      | [] => []
      | _ :: rest => splitLines rest
termination_by l.length
decreasing_by
  have hlen : (l.dropWhile (fun c => c ≠ '\n')).length ≤ l.length := by
    exact (List.dropWhile_sublist _).length_le
  have hone : (l.dropWhile (fun c => c ≠ '\n')).length = rest.length + 1 := by rw [h]; rfl
  omega

/-- The per-type-list suffix of `sanitize_source` (lines 1049-1055):
empty when every instantiation type is the default `casadi_real`,
otherwise the concatenation of `"_" + s` over all instantiation types
(the inner loop runs over the whole list once any element differs). -/
def instSuffix (inst : List String) : String :=
  if inst.all (fun s => s = "casadi_real") then ""
  else String.join (inst.map (fun s => "_" ++ s))

/-- The state threaded through the line loop of `sanitize_source`: the
ordered replacement list `rep`, the emitter's `added_shorthands_`, and
the lines already appended to the return stream. -/
structure SanState where
  rep : List (List Char × List Char)
  shorthands : List String
  outLines : List (List Char)
deriving DecidableEq

/-- One iteration of the `while (std::getline(stream, line))` loop of
`sanitize_source` (lines 1068-1130): drop template declarations, macro
(un)definitions and bare `inline` markers; a `// SYMBOL` directive
registers a shorthand for the quoted symbol plus suffix and, when the
suffix is active, records the rename; a `// C-REPLACE` directive
records the quoted pair; otherwise strip the trailing `//` comment and
trailing spaces (dropping the line when nothing remains), apply the
recorded substitutions in reverse-registration order, and append the
line.  A directive line with no quote at all makes the C++ `substr`
throw `std::out_of_range`; the shipped templates are well formed, and
the fallback index used here is never exercised by them. -/
def processLine (suffix : List Char) (add_shorthand : Bool) (st : SanState)
    (line : List Char) : SanState :=
  if ("template".data.isPrefixOf line) then st
  else if ("#define".data.isPrefixOf line) then st
  else if ("#undef".data.isPrefixOf line) then st
  else if (line = "inline".data) then st
  else if ("// SYMBOL".data.isPrefixOf line) then
    let n1 := (strFind line ['"'] 0).getD line.length
    let n2 := (strFind line ['"'] (n1 + 1)).getD line.length
    let sym := (line.drop (n1 + 1)).take (n2 - n1 - 1)
    let sh := if add_shorthand then
        (shorthandAdd st.shorthands (sym ++ suffix).asString).1
      else st.shorthands
    let rep := if suffix ≠ [] then st.rep ++ [(sym, sym ++ suffix)] else st.rep
    { st with shorthands := sh, rep := rep }
  else if ("// C-REPLACE".data.isPrefixOf line) then
    let n1 := (strFind line ['"'] 0).getD line.length
    let n2 := (strFind line ['"'] (n1 + 1)).getD line.length
    let key := (line.drop (n1 + 1)).take (n2 - n1 - 1)
    let m1 := (strFind line ['"'] (n2 + 1)).getD line.length
    let m2 := (strFind line ['"'] (m1 + 1)).getD line.length
    let sub := (line.drop (m1 + 1)).take (m2 - m1 - 1)
    { st with rep := st.rep ++ [(key, sub)] }
  else
    let line1 := match findSub? "//".data line with
      | some n1 => line.take n1
      | none => line
    match findLastNotSpace line1 with
    | none => st
    | some n1 =>
      let line2 := line1.take (n1 + 1)
      let line3 := applyRep st.rep line2
      { st with outLines := st.outLines ++ [line3] }

/-- `CodeGenerator::sanitize_source(src, inst, add_shorthand)` (lines
1045-1135): build the suffix and the initial `T1`, `T2`, ... type
replacements, run every line of the source through `processLine`, and
return the updated `added_shorthands_` together with the processed
lines, each followed by a newline, plus the final trailing newline. -/
def sanitize_source (shs : List String) (src : String) (inst : List String)
    (add_shorthand : Bool) : List String × String :=
  let suffix := instSuffix inst
  let rep0 := inst.enum.map (fun p => (("T" ++ toString (p.1 + 1)).data, p.2.data))
  let stF := (splitLines src.data).foldl (processLine suffix.data add_shorthand)
    ⟨rep0, shs, []⟩
  (stF.shorthands,
    String.join (stF.outLines.map (fun l => l.asString ++ "\n")) ++ "\n")

/-! ## The auxiliary-routine resolver

`CodeGenerator::add_auxiliary` (lines 619-739).  `added_auxiliaries_`
is a `std::multimap<Auxiliary, std::vector<std::string>>`, modelled as
the list of its (kind, instantiation) pairs; the `auxiliaries` stream
is modelled as the list of appended chunks, each tagged with the
requested pair that produced it (concatenating the `text` fields in
order reconstructs the stream).  The template string for each kind
(`casadi_copy_str`, ..., from casadi_runtime_str.h, outside this
repository's src/) is abstract: `tmpl` maps each kind to its template.
The default instantiation of the single-argument calls is the header
default `defaultInst`. -/

/-- The `Auxiliary` enumeration (declared in code_generator.hpp, with
exactly the members matched by the `switch` at lines 629-738). -/
inductive Auxiliary where
  | AUX_COPY | AUX_SWAP | AUX_SCAL | AUX_AXPY | AUX_DOT | AUX_BILIN | AUX_RANK1
  | AUX_IAMAX | AUX_INTERPN | AUX_INTERPN_GRAD | AUX_DE_BOOR | AUX_ND_BOOR_EVAL
  | AUX_FLIP | AUX_LOW | AUX_INTERPN_WEIGHTS | AUX_INTERPN_INTERPOLATE
  | AUX_NORM_1 | AUX_NORM_2 | AUX_NORM_INF | AUX_FILL | AUX_MV | AUX_MV_DENSE
  | AUX_MTIMES | AUX_PROJECT | AUX_DENSIFY | AUX_TRANS | AUX_TO_MEX | AUX_FROM_MEX
  | AUX_FINITE_DIFF
deriving DecidableEq

open Auxiliary

/-- Modelled from the spec: the default value of `add_auxiliary`'s
`inst` parameter is declared in code_generator.hpp (not under src/);
the spec's "default numeric type" is `casadi_real`, the type that
`sanitize_source` treats as suffix-free. -/
def defaultInst : List String := ["casadi_real"]

/-- One chunk appended to the `auxiliaries` stream, tagged with the
(kind, instantiation) request that emitted it. -/
structure AuxChunk where
  tag : Auxiliary × List String
  text : String
deriving DecidableEq

/-- The state slice touched by `add_auxiliary`: `added_auxiliaries_`,
the `auxiliaries` stream (as tagged chunks) and `added_shorthands_`
(written through `sanitize_source`). -/
structure AuxState where
  added_auxiliaries : List (Auxiliary × List String)
  auxiliaries : List AuxChunk
  added_shorthands : List String
deriving DecidableEq

/-- The empty resolver state of a fresh `CodeGenerator`. -/
def auxInit : AuxState := ⟨[], [], []⟩

/-- The emission step shared by every `switch` case:
`this->auxiliaries << pre << sanitize_source(tpl, instUsed) << post`,
tagged with the request `tag` (`pre`/`post` are empty except for the
`MATLAB_MEX_FILE` guards of `AUX_TO_MEX`/`AUX_FROM_MEX`). -/
def appendChunk (s : AuxState) (tag : Auxiliary × List String) (tpl : String)
    (instUsed : List String) (pre post : String) : AuxState :=
  let r := sanitize_source s.added_shorthands tpl instUsed true
  { s with added_shorthands := r.1,
           auxiliaries := s.auxiliaries ++ [⟨tag, pre ++ r.2 ++ post⟩] }

/-- Depth of an `Auxiliary` kind in the prerequisite graph, used as the
termination measure of `add_auxiliary` (the catalogue is a finite DAG;
each recursive prerequisite call strictly decreases this rank). -/
def auxRank : Auxiliary → Nat
  | AUX_INTERPN_GRAD => 3
  | AUX_INTERPN => 2
  | AUX_INTERPN_WEIGHTS => 1
  | AUX_ND_BOOR_EVAL => 1
  | AUX_DENSIFY => 1
  | AUX_FROM_MEX => 1
  | _ => 0

/-- `CodeGenerator::add_auxiliary(f, inst)` (lines 619-739): return
silently when the identical (kind, instantiation) pair was already
emitted; otherwise record the pair, recursively add the kind's
prerequisites, and append the sanitized specialization of the kind's
template (`AUX_DENSIFY` duplicates a single-element instantiation into
a pair before specializing; the mex kinds wrap their routine in a
`MATLAB_MEX_FILE` guard). -/
def add_auxiliary (tmpl : Auxiliary → String) (s : AuxState) (f : Auxiliary)
    (inst : List String) : AuxState :=
  if (f, inst) ∈ s.added_auxiliaries then s
  else
    let s0 : AuxState := { s with added_auxiliaries := s.added_auxiliaries ++ [(f, inst)] }
    match f with
    | AUX_INTERPN =>
      let s1 := add_auxiliary tmpl s0 AUX_INTERPN_WEIGHTS defaultInst
      let s2 := add_auxiliary tmpl s1 AUX_INTERPN_INTERPOLATE defaultInst
      let s3 := add_auxiliary tmpl s2 AUX_FLIP []
      let s4 := add_auxiliary tmpl s3 AUX_FILL defaultInst
      let s5 := add_auxiliary tmpl s4 AUX_FILL ["int"]
      appendChunk s5 (AUX_INTERPN, inst) (tmpl AUX_INTERPN) inst "" ""
    | AUX_INTERPN_GRAD =>
      let s1 := add_auxiliary tmpl s0 AUX_INTERPN defaultInst
      appendChunk s1 (AUX_INTERPN_GRAD, inst) (tmpl AUX_INTERPN_GRAD) inst "" ""
    | AUX_ND_BOOR_EVAL =>
      let s1 := add_auxiliary tmpl s0 AUX_DE_BOOR defaultInst
      let s2 := add_auxiliary tmpl s1 AUX_FILL defaultInst
      let s3 := add_auxiliary tmpl s2 AUX_FILL ["int"]
      let s4 := add_auxiliary tmpl s3 AUX_LOW defaultInst
      appendChunk s4 (AUX_ND_BOOR_EVAL, inst) (tmpl AUX_ND_BOOR_EVAL) inst "" ""
    | AUX_INTERPN_WEIGHTS =>
      let s1 := add_auxiliary tmpl s0 AUX_LOW defaultInst
      appendChunk s1 (AUX_INTERPN_WEIGHTS, inst) (tmpl AUX_INTERPN_WEIGHTS) inst "" ""
    | AUX_DENSIFY =>
      let s1 := add_auxiliary tmpl s0 AUX_FILL defaultInst
      let inst2 := if inst.length = 1 then inst ++ [inst.getD 0 ""] else inst
      appendChunk s1 (AUX_DENSIFY, inst) (tmpl AUX_DENSIFY) inst2 "" ""
    | AUX_TO_MEX =>
      appendChunk s0 (AUX_TO_MEX, inst) (tmpl AUX_TO_MEX) inst
        "#ifdef MATLAB_MEX_FILE\n" "#endif\n\n"
    | AUX_FROM_MEX =>
      let s1 := add_auxiliary tmpl s0 AUX_FILL defaultInst
      appendChunk s1 (AUX_FROM_MEX, inst) (tmpl AUX_FROM_MEX) inst
        "#ifdef MATLAB_MEX_FILE\n" "#endif\n\n"
    | g => appendChunk s0 (g, inst) (tmpl g) inst "" ""
termination_by auxRank f
decreasing_by all_goals decide

/-- Relation between two resolver states produced by a run of
`add_auxiliary`: the emitted-pair record grows by appending, the
auxiliary stream grows by appending chunks whose request tags are
pairwise distinct, were not yet recorded before the run, and are
recorded after it. -/
def Grows (s s' : AuxState) : Prop :=
  (∃ d, s'.added_auxiliaries = s.added_auxiliaries ++ d) ∧
  (∃ ext, s'.auxiliaries = s.auxiliaries ++ ext ∧
    (ext.map AuxChunk.tag).Nodup ∧
    ∀ t ∈ ext.map AuxChunk.tag,
      t ∉ s.added_auxiliaries ∧ t ∈ s'.added_auxiliaries)

/-- Invariant of the auxiliary stream: every chunk's request tag is
recorded in `added_auxiliaries_`, and no two chunks share a tag — i.e.
each (kind, instantiation) pair has been appended at most once. -/
def AuxInv (s : AuxState) : Prop :=
  (s.auxiliaries.map AuxChunk.tag).Nodup ∧
  ∀ t ∈ s.auxiliaries.map AuxChunk.tag, t ∈ s.added_auxiliaries

/-! ## Lemmas about the constant pools -/

theorem poolFind_eq_none_iff {α : Type} [DecidableEq α] (consts : List (List α)) (h : Nat)
    (v : List α) (added : List (Nat × Nat)) :
    poolFind consts h v added = none ↔
      ∀ e ∈ added, ¬(e.1 = h ∧ consts.getD e.2 [] = v) := by
  induction added with
  | nil => simp [poolFind]
  | cons e rest ih =>
    by_cases hc : e.1 = h ∧ consts.getD e.2 [] = v
    · simp only [poolFind, if_pos hc]
      constructor
      · intro hx; exact absurd hx (by simp)
      · intro hall; exact absurd hc (hall e (List.mem_cons_self e rest))
    · simp only [poolFind, if_neg hc, ih, List.mem_cons]
      constructor
      · intro hall x hx
        rcases hx with hx | hx
        · exact hx ▸ hc
        · exact hall x hx
      · intro hall x hx
        exact hall x (Or.inr hx)

theorem poolFind_some_spec {α : Type} [DecidableEq α] (consts : List (List α)) (h : Nat)
    (v : List α) (added : List (Nat × Nat)) (i : Nat)
    (hf : poolFind consts h v added = some i) :
    (∃ e ∈ added, e.2 = i) ∧ consts.getD i [] = v := by
  induction added with
  | nil => simp [poolFind] at hf
  | cons e rest ih =>
    by_cases hc : e.1 = h ∧ consts.getD e.2 [] = v
    · simp only [poolFind, if_pos hc, Option.some.injEq] at hf
      subst hf
      exact ⟨⟨e, List.mem_cons_self e rest, rfl⟩, hc.2⟩
    · simp only [poolFind, if_neg hc] at hf
      obtain ⟨⟨e', he', hi⟩, hv⟩ := ih hf
      exact ⟨⟨e', List.mem_cons_of_mem e he', hi⟩, hv⟩

theorem poolFind_complete {α : Type} [DecidableEq α] (hashFn : List α → Nat)
    (consts : List (List α)) (added : List (Nat × Nat))
    (wf2 : ∀ j, j < consts.length → (hashFn (consts.getD j []), j) ∈ added)
    (j : Nat) (hj : j < consts.length) (v : List α) (hv : consts.getD j [] = v) :
    poolFind consts (hashFn v) v added ≠ none := by
  intro hnone
  rw [poolFind_eq_none_iff] at hnone
  exact hnone (hashFn v, j) (hv ▸ wf2 j hj) ⟨rfl, hv⟩

theorem get_constant_true_ok {α : Type} [DecidableEq α] (hashFn : List α → Nat)
    (p : ConstPool α) (v : List α) :
    ∃ i p', get_constant hashFn p v true = .ok (i, p') := by
  unfold get_constant
  cases hf : poolFind p.constants (hashFn v) v p.added with
  | none => exact ⟨p.constants.length, _, rfl⟩
  | some i => exact ⟨i, p, rfl⟩

/-- After a successful intern, the pool is still well formed, the
payload store only grew at the end, and the returned id points at the
interned payload. -/
theorem get_constant_true_props {α : Type} [DecidableEq α] (hashFn : List α → Nat)
    (p : ConstPool α) (v : List α) (i : Nat) (p' : ConstPool α)
    (hwf : PoolWF hashFn p)
    (hok : get_constant hashFn p v true = .ok (i, p')) :
    PoolWF hashFn p' ∧ (∃ ext, p'.constants = p.constants ++ ext) ∧
      p'.constants.getD i [] = v ∧ i < p'.constants.length := by
  obtain ⟨wf1, wf2, wf3⟩ := hwf
  unfold get_constant at hok
  cases hf : poolFind p.constants (hashFn v) v p.added with
  | some i0 =>
    simp only [hf, Except.ok.injEq, Prod.mk.injEq] at hok
    obtain ⟨hi, hp⟩ := hok
    subst hi; subst hp
    obtain ⟨⟨e, he, hi⟩, hv⟩ := poolFind_some_spec _ _ _ _ _ hf
    exact ⟨⟨wf1, wf2, wf3⟩, ⟨[], by simp⟩, hv, hi ▸ (wf1 e he).1⟩
  | none =>
    simp only [hf, if_pos, Except.ok.injEq, Prod.mk.injEq] at hok
    obtain ⟨hi, hp⟩ := hok
    subst hi
    have hnotmem : ∀ j, j < p.constants.length → p.constants.getD j [] ≠ v := by
      intro j hj hv
      exact poolFind_complete hashFn p.constants p.added wf2 j hj v hv hf
    have hlen : p'.constants = p.constants ++ [v] := by rw [← hp]
    have hadded : p'.added = p.added ++ [(hashFn v, p.constants.length)] := by rw [← hp]
    have hgetD_old : ∀ j, j < p.constants.length →
        (p.constants ++ [v]).getD j [] = p.constants.getD j [] := by
      intro j hj
      rw [List.getD_eq_getElem?_getD, List.getD_eq_getElem?_getD,
        List.getElem?_append_left hj]
    have hgetD_new : (p.constants ++ [v]).getD p.constants.length [] = v := by
      rw [List.getD_eq_getElem?_getD, List.getElem?_append_right (Nat.le_refl _)]
      simp
    refine ⟨⟨?_, ?_, ?_⟩, ⟨[v], by rw [hlen]⟩, ?_, ?_⟩
    · intro e he
      rw [hadded] at he
      rcases List.mem_append.mp he with he | he
      · refine ⟨?_, ?_⟩
        · rw [hlen]
          simpa using Nat.lt_succ_of_lt (wf1 e he).1
        · rw [hlen, hgetD_old e.2 (wf1 e he).1]
          exact (wf1 e he).2
      · simp only [List.mem_singleton] at he
        subst he
        constructor
        · rw [hlen]; simp
        · rw [hlen]; rw [hgetD_new]
    · intro j hj
      rw [hlen] at hj
      simp only [List.length_append, List.length_singleton] at hj
      rw [hadded, hlen]
      rcases Nat.lt_or_ge j p.constants.length with hlt | hge
      · rw [hgetD_old j hlt]
        exact List.mem_append.mpr (Or.inl (wf2 j hlt))
      · have : j = p.constants.length := by omega
        subst this
        rw [hgetD_new]
        simp
    · rw [hlen]
      rw [List.nodup_append]
      refine ⟨wf3, List.nodup_singleton v, ?_⟩
      intro x hx hx'
      simp only [List.mem_singleton] at hx'
      subst hx'
      obtain ⟨j, hj, hjx⟩ := List.mem_iff_getElem.mp hx
      exact hnotmem j hj (by rw [List.getD_eq_getElem?_getD, List.getElem?_eq_getElem hj]; simpa using hjx)
    · rw [hlen, hgetD_new]
    · rw [hlen]; simp

/-- A well-formed pool with no duplicate payloads returns the unique id
of an already-stored payload, without changing state. -/
theorem get_constant_true_stable {α : Type} [DecidableEq α] (hashFn : List α → Nat)
    (p : ConstPool α) (v : List α) (i : Nat)
    (hwf : PoolWF hashFn p) (hi : i < p.constants.length)
    (hv : p.constants.getD i [] = v) :
    get_constant hashFn p v true = .ok (i, p) := by
  obtain ⟨wf1, wf2, wf3⟩ := hwf
  unfold get_constant
  cases hf : poolFind p.constants (hashFn v) v p.added with
  | none => exact absurd hf (poolFind_complete hashFn p.constants p.added wf2 i hi v hv)
  | some i' =>
    obtain ⟨⟨e, he, hie⟩, hv'⟩ := poolFind_some_spec _ _ _ _ _ hf
    have hi' : i' < p.constants.length := hie ▸ (wf1 e he).1
    have h1 : p.constants.get ⟨i', hi'⟩ = v := by
      rw [List.getD_eq_getElem?_getD, List.getElem?_eq_getElem hi'] at hv'
      simpa using hv'
    have h2 : p.constants.get ⟨i, hi⟩ = v := by
      rw [List.getD_eq_getElem?_getD, List.getElem?_eq_getElem hi] at hv
      simpa using hv
    have hfin : (⟨i', hi'⟩ : Fin p.constants.length) = ⟨i, hi⟩ :=
      (List.Nodup.get_inj_iff wf3).mp (h1.trans h2.symm)
    have : i' = i := congrArg Fin.val hfin
    subst this
    rfl

/-- `internAll` preserves well-formedness and only appends payloads. -/
theorem internAll_props {α : Type} [DecidableEq α] (hashFn : List α → Nat)
    (ops : List (List α)) (p : ConstPool α) (hwf : PoolWF hashFn p) :
    PoolWF hashFn (internAll hashFn p ops) ∧
      ∃ ext, (internAll hashFn p ops).constants = p.constants ++ ext := by
  induction ops generalizing p with
  | nil => exact ⟨hwf, [], by simp [internAll]⟩
  | cons w ws ih =>
    obtain ⟨i, p', hok⟩ := get_constant_true_ok hashFn p w
    obtain ⟨hwf', ⟨e1, he1⟩, -, -⟩ := get_constant_true_props hashFn p w i p' hwf hok
    have hstep : internAll hashFn p (w :: ws) = internAll hashFn p' ws := by
      simp [internAll, hok]
    obtain ⟨hwf'', e2, he2⟩ := ih p' hwf'
    exact ⟨hstep ▸ hwf'', e1 ++ e2, by rw [hstep, he2, he1, List.append_assoc]⟩

/-- C1: for every two equal-length, element-wise-equal payload
sequences, interning both through `get_constant` with
`allow_adding = true` returns the same id, regardless of any unrelated
insertions between the two calls; and for every two sequences whose
hashes collide but whose contents differ element-wise, interning
returns distinct ids.  (Equal payloads are represented by the same
list `v`; `ops` is the arbitrary sequence of insertions in between;
the pool is any well-formed pool, e.g. any pool built by interning.) -/
theorem C1_pool_intern_stable_distinct {α : Type} [DecidableEq α]
    (hashFn : List α → Nat) (p : ConstPool α) (hwf : PoolWF hashFn p)
    (v w : List α) (ops : List (List α)) (hne : v ≠ w) (hcol : hashFn v = hashFn w) :
    (∃ i p1, get_constant hashFn p v true = .ok (i, p1) ∧
       ∃ p2, get_constant hashFn (internAll hashFn p1 ops) v true =
         .ok (i, internAll hashFn p1 ops) ∧ p2 = internAll hashFn p1 ops) ∧
    (∃ i p1 j p2, get_constant hashFn p v true = .ok (i, p1) ∧
       get_constant hashFn p1 w true = .ok (j, p2) ∧ i ≠ j) := by
  obtain ⟨i, p1, hok⟩ := get_constant_true_ok hashFn p v
  obtain ⟨hwf1, ⟨e1, he1⟩, hv1, hi1⟩ := get_constant_true_props hashFn p v i p1 hwf hok
  constructor
  · refine ⟨i, p1, hok, internAll hashFn p1 ops, ?_, rfl⟩
    obtain ⟨hwfq, eq2, heq2⟩ := internAll_props hashFn ops p1 hwf1
    have hiq : i < (internAll hashFn p1 ops).constants.length := by
      rw [heq2, List.length_append]
      omega
    have hvq : (internAll hashFn p1 ops).constants.getD i [] = v := by
      rw [heq2, List.getD_eq_getElem?_getD, List.getElem?_append_left hi1,
        ← List.getD_eq_getElem?_getD]
      exact hv1
    exact get_constant_true_stable hashFn _ v i hwfq hiq hvq
  · obtain ⟨j, p2, hok2⟩ := get_constant_true_ok hashFn p1 w
    obtain ⟨hwf2, ⟨e2, he2⟩, hw2, hj2⟩ := get_constant_true_props hashFn p1 w j p2 hwf1 hok2
    refine ⟨i, p1, j, p2, hok, hok2, ?_⟩
    intro hij
    subst hij
    have hv2 : p2.constants.getD i [] = v := by
      rw [he2, List.getD_eq_getElem?_getD, List.getElem?_append_left hi1,
        ← List.getD_eq_getElem?_getD]
      exact hv1
    exact hne (hv2 ▸ hw2 ▸ rfl)

/-- Witness for C1 at a concrete collision: a constant hash function on
integer payloads, an empty pool, payloads `[0]` and `[1]`, and one
unrelated insertion `[5]` in between. -/
theorem C1_pool_intern_stable_distinct_witness :
    (∃ i p1, get_constant (fun _ => 0) (⟨[], []⟩ : ConstPool Int) [0] true = .ok (i, p1) ∧
       ∃ p2, get_constant (fun _ => 0) (internAll (fun _ => 0) p1 [[5]]) [0] true =
         .ok (i, internAll (fun _ => 0) p1 [[5]]) ∧ p2 = internAll (fun _ => 0) p1 [[5]]) ∧
    (∃ i p1 j p2, get_constant (fun _ => 0) (⟨[], []⟩ : ConstPool Int) [0] true = .ok (i, p1) ∧
       get_constant (fun _ => 0) p1 [1] true = .ok (j, p2) ∧ i ≠ j) :=
  C1_pool_intern_stable_distinct (fun _ => 0) ⟨[], []⟩
    (by constructor
        · intro e he; exact absurd he (List.not_mem_nil e)
        · exact ⟨fun i hi => absurd hi (Nat.not_lt_zero i), List.nodup_nil⟩)
    [0] [1] [[5]] (by decide) rfl

/-- C5: for every payload not element-wise equal to any previously
interned entry, the read-only pool lookup (`get_constant` with
`allow_adding = false`) fails with the structured error
`"Constant not found"` and does not insert — in this embedding a
failing call returns only the error, leaving the pool value untouched
(the C++ method throws from `casadi_error` before any mutation). -/
theorem C5_readonly_lookup_fails {α : Type} [DecidableEq α]
    (hashFn : List α → Nat) (p : ConstPool α) (hwf : PoolWF hashFn p)
    (v : List α) (habsent : ∀ u ∈ p.constants, u ≠ v) :
    get_constant hashFn p v false = .error "Constant not found" := by
  obtain ⟨wf1, wf2, wf3⟩ := hwf
  have hnone : poolFind p.constants (hashFn v) v p.added = none := by
    rw [poolFind_eq_none_iff]
    rintro e he ⟨-, hv⟩
    have hlt := (wf1 e he).1
    have hmem : p.constants.getD e.2 [] ∈ p.constants := by
      rw [List.getD_eq_getElem?_getD, List.getElem?_eq_getElem hlt]
      exact List.getElem_mem hlt
    exact habsent _ hmem hv
  unfold get_constant
  rw [hnone]
  rfl

/-- Witness for C5: looking up `[2]` read-only in a one-entry pool
holding `[1]` fails. -/
theorem C5_readonly_lookup_fails_witness :
    get_constant (fun _ => 0) (⟨[[1]], [(0, 0)]⟩ : ConstPool Int) [2] false =
      .error "Constant not found" :=
  C5_readonly_lookup_fails (fun _ => 0) ⟨[[1]], [(0, 0)]⟩
    (by unfold PoolWF; decide) [2] (by decide)

/-! ## Lemmas about the custom IO scheme map -/

theorem find_mapAssign_self (m : List (String × Int)) (k : String) (v : Int)
    (h : (m.find? (fun e => e.1 = k)).isSome = true) :
    (m.map (fun e => if e.1 = k then (k, v) else e)).find? (fun e => e.1 = k) = some (k, v) := by
  induction m with
  | nil => simp at h
  | cons e rest ih =>
    by_cases he : e.1 = k
    · rw [List.map_cons, if_pos he]
      exact List.find?_cons_of_pos _ (by simp)
    · rw [List.map_cons, if_neg he]
      rw [List.find?_cons_of_neg _ (by simpa using he)]
      apply ih
      rw [List.find?_cons_of_neg _ (by simpa using he)] at h
      exact h

theorem find_append_single_none (m : List (String × Int)) (k : String) (v : Int)
    (h : m.find? (fun e => e.1 = k) = none) :
    (m ++ [(k, v)]).find? (fun e => e.1 = k) = some (k, v) := by
  induction m with
  | nil => exact List.find?_cons_of_pos _ (by simp)
  | cons e rest ih =>
    have he : ¬(e.1 = k) := by
      intro he
      rw [List.find?_cons_of_pos _ (by simpa using he)] at h
      exact Option.some_ne_none _ h
    rw [List.find?_cons_of_neg _ (by simpa using he)] at h
    rw [List.cons_append, List.find?_cons_of_neg _ (by simpa using he)]
    exact ih h

theorem lookupMap_mapAssign_self (m : List (String × Int)) (k : String) (v : Int) :
    lookupMap (mapAssign m k v) k = some v := by
  unfold lookupMap mapAssign
  by_cases h : (m.find? (fun e => e.1 = k)).isSome = true
  · rw [if_pos h, find_mapAssign_self m k v h]
    rfl
  · have hn : m.find? (fun e => e.1 = k) = none := by
      cases hf : m.find? (fun e => e.1 = k) with
      | none => rfl
      | some e => rw [hf] at h; simp at h
    rw [if_neg h, find_append_single_none m k v hn]
    rfl

theorem find_map_overwrite_ne (m : List (String × Int)) (k k2 : String) (v : Int)
    (h : k2 ≠ k) :
    ((m.map (fun e => if e.1 = k then (k, v) else e)).find?
        (fun e => e.1 = k2)).map (fun e => e.2) =
      (m.find? (fun e => e.1 = k2)).map (fun e => e.2) := by
  induction m with
  | nil => rfl
  | cons e rest ih =>
    by_cases he : e.1 = k
    · rw [List.map_cons, if_pos he]
      have h1 : ¬(k = k2) := fun hh => h hh.symm
      have h2 : ¬(e.1 = k2) := by rw [he]; exact h1
      rw [List.find?_cons_of_neg _ (by simpa using h1),
        List.find?_cons_of_neg _ (by simpa using h2)]
      exact ih
    · rw [List.map_cons, if_neg he]
      by_cases he2 : e.1 = k2
      · rw [List.find?_cons_of_pos _ (by simpa using he2),
          List.find?_cons_of_pos _ (by simpa using he2)]
      · rw [List.find?_cons_of_neg _ (by simpa using he2),
          List.find?_cons_of_neg _ (by simpa using he2)]
        exact ih

theorem find_append_single_ne (m : List (String × Int)) (k k2 : String) (v : Int)
    (h : k2 ≠ k) :
    (m ++ [(k, v)]).find? (fun e => e.1 = k2) = m.find? (fun e => e.1 = k2) := by
  induction m with
  | nil =>
    have h1 : ¬(k = k2) := fun hh => h hh.symm
    rw [List.nil_append, List.find?_cons_of_neg _ (by simpa using h1)]
  | cons e rest ih =>
    by_cases he2 : e.1 = k2
    · rw [List.cons_append, List.find?_cons_of_pos _ (by simpa using he2),
        List.find?_cons_of_pos _ (by simpa using he2)]
    · rw [List.cons_append, List.find?_cons_of_neg _ (by simpa using he2),
        List.find?_cons_of_neg _ (by simpa using he2)]
      exact ih

theorem lookupMap_mapAssign_ne (m : List (String × Int)) (k k2 : String) (v : Int)
    (h : k2 ≠ k) : lookupMap (mapAssign m k v) k2 = lookupMap m k2 := by
  unfold lookupMap mapAssign
  by_cases hs : (m.find? (fun e => e.1 = k)).isSome = true
  · rw [if_pos hs]
    exact find_map_overwrite_ne m k k2 v h
  · rw [if_neg hs, find_append_single_ne m k k2 v h]

theorem lookupMap_buildEntryMap_notmem (es : List String) (m : List (String × Int))
    (i : Nat) (k : String) (h : k ∉ es) :
    lookupMap (buildEntryMap m i es) k = lookupMap m k := by
  induction es generalizing m i with
  | nil => rfl
  | cons e rest ih =>
    have hk : k ≠ e := fun hh => h (hh ▸ List.mem_cons_self e rest)
    have hr : k ∉ rest := fun hh => h (List.mem_cons_of_mem e hh)
    unfold buildEntryMap
    rw [ih _ _ hr, lookupMap_mapAssign_ne _ _ _ _ hk]

theorem lookupMap_buildEntryMap_get (es : List String) (hnd : es.Nodup) :
    ∀ m i j, j < es.length →
      lookupMap (buildEntryMap m i es) (es.getD j "") = some (Int.ofNat (i + j)) := by
  induction es with
  | nil => intro m i j hj; simp at hj
  | cons e rest ih =>
    intro m i j hj
    rcases List.nodup_cons.mp hnd with ⟨hnotmem, hndr⟩
    cases j with
    | zero =>
      simp only [List.getD_cons_zero]
      unfold buildEntryMap
      rw [lookupMap_buildEntryMap_notmem rest _ _ e hnotmem, lookupMap_mapAssign_self]
      rfl
    | succ j =>
      simp only [List.getD_cons_succ]
      unfold buildEntryMap
      have harith : i + 1 + j = i + (j + 1) := by omega
      have := ih hndr (mapAssign m e (Int.ofNat i)) (i + 1) j
        (by simpa using Nat.lt_of_succ_lt_succ hj)
      rw [this, harith]

/-- C10: for every custom IO scheme built from pairwise-distinct entry
names, `index (entry i) = i` for every `0 ≤ i < size()`; `entry` with
an index outside that range fails with a structured error; and `index`
with a name not in the list fails with a structured error. -/
theorem C10_io_scheme_roundtrip (entries : List String) (hnd : entries.Nodup) :
    (∀ j : Nat, j < (mkIOSchemeCustom entries).size →
       ∃ s, (mkIOSchemeCustom entries).entry (Int.ofNat j) = .ok s ∧
         (mkIOSchemeCustom entries).index s = .ok (Int.ofNat j)) ∧
    (∀ i : Int, i < 0 ∨ ((mkIOSchemeCustom entries).size : Int) ≤ i →
       ∃ e, (mkIOSchemeCustom entries).entry i = .error e) ∧
    (∀ name, name ∉ entries →
       ∃ e, (mkIOSchemeCustom entries).index name = .error e) := by
  refine ⟨?_, ?_, ?_⟩
  · intro j hj
    have hj' : j < entries.length := hj
    refine ⟨entries.getD j "", ?_, ?_⟩
    · unfold IOSchemeCustomInternal.entry
      rw [if_pos ?_]
      · simp [mkIOSchemeCustom]
      · refine ⟨Int.ofNat_nonneg j, ?_⟩
        show Int.ofNat j < ((mkIOSchemeCustom entries).entries.length : Int)
        simp only [mkIOSchemeCustom]
        exact Int.ofNat_lt.mpr hj'
    · unfold IOSchemeCustomInternal.index
      rw [show (mkIOSchemeCustom entries).entrymap = buildEntryMap [] 0 entries from rfl,
        lookupMap_buildEntryMap_get entries hnd [] 0 j hj']
      simp
  · intro i hi
    unfold IOSchemeCustomInternal.size at hi
    simp only [mkIOSchemeCustom] at hi
    have hcond : ¬(0 ≤ i ∧ i < ((mkIOSchemeCustom entries).entries.length : Int)) := by
      simp only [mkIOSchemeCustom]
      rintro ⟨h1, h2⟩
      rcases hi with hi | hi <;> omega
    exact ⟨_, by unfold IOSchemeCustomInternal.entry; rw [if_neg hcond]⟩
  · intro name hname
    have hres : (mkIOSchemeCustom entries).index name =
        .error ("customIO::index(): entry '" ++ name
          ++ "' not available. Available entries are "
          ++ (mkIOSchemeCustom entries).entryNames) := by
      unfold IOSchemeCustomInternal.index
      rw [show (mkIOSchemeCustom entries).entrymap = buildEntryMap [] 0 entries from rfl,
        lookupMap_buildEntryMap_notmem entries [] 0 name hname]
      rfl
    exact ⟨_, hres⟩

/-- Witness for C10 with entries `["x", "y"]`: round trip at index 1,
failing access at index 2, failing lookup of `"w"`. -/
theorem C10_io_scheme_roundtrip_witness :
    (∃ s, (mkIOSchemeCustom ["x", "y"]).entry (Int.ofNat 1) = .ok s ∧
       (mkIOSchemeCustom ["x", "y"]).index s = .ok (Int.ofNat 1)) ∧
    (∃ e, (mkIOSchemeCustom ["x", "y"]).entry 2 = .error e) ∧
    (∃ e, (mkIOSchemeCustom ["x", "y"]).index "w" = .error e) := by
  have h := C10_io_scheme_roundtrip ["x", "y"] (by decide)
  exact ⟨h.1 1 (by decide), h.2.1 2 (Or.inr (by decide)), h.2.2 "w" (by decide)⟩

/-- C9: include and external-declaration requests deduplicate by exact
request text: a repeated request is a no-op leaving the includes
section and the external-declaration set unchanged, while a textually
distinct request is appended. -/
theorem C9_include_external_dedup (s : IncludeState) (inc ext : String)
    (relative_path : Bool) (use_ifdef : String) :
    (inc ∈ s.added_includes → add_include s inc relative_path use_ifdef = s) ∧
    (inc ∉ s.added_includes →
       (add_include s inc relative_path use_ifdef).added_includes =
           s.added_includes ++ [inc] ∧
         (add_include s inc relative_path use_ifdef).includes =
           s.includes
             ++ (if use_ifdef ≠ "" then "#ifdef " ++ use_ifdef ++ "\n" else "")
             ++ (if relative_path then "#include \"" ++ inc ++ "\"\n"
                 else "#include <" ++ inc ++ ">\n")
             ++ (if use_ifdef ≠ "" then "#endif\n" else "") ∧
         (add_include s inc relative_path use_ifdef).added_externals =
           s.added_externals) ∧
    (ext ∈ s.added_externals → add_external s ext = s) ∧
    (ext ∉ s.added_externals →
       (add_external s ext).added_externals = s.added_externals ++ [ext] ∧
         (add_external s ext).added_includes = s.added_includes ∧
         (add_external s ext).includes = s.includes) := by
  refine ⟨?_, ?_, ?_, ?_⟩ <;> intro h <;>
    simp [add_include, add_external, h]

/-- Witness for C9: repeating `"math.h"` is a no-op, a fresh
`"stdio.h"` is appended; repeating external `"e"` is a no-op, a fresh
`"e2"` is appended. -/
theorem C9_include_external_dedup_witness :
    add_include ⟨["math.h"], "#include <math.h>\n", ["e"]⟩ "math.h" false "" =
      ⟨["math.h"], "#include <math.h>\n", ["e"]⟩ ∧
    (add_include ⟨["math.h"], "#include <math.h>\n", ["e"]⟩ "stdio.h" false "").added_includes =
      ["math.h", "stdio.h"] ∧
    add_external ⟨["math.h"], "#include <math.h>\n", ["e"]⟩ "e" =
      ⟨["math.h"], "#include <math.h>\n", ["e"]⟩ ∧
    (add_external ⟨["math.h"], "#include <math.h>\n", ["e"]⟩ "e2").added_externals =
      ["e", "e2"] := by
  have h1 := C9_include_external_dedup ⟨["math.h"], "#include <math.h>\n", ["e"]⟩
    "math.h" "e" false ""
  have h2 := C9_include_external_dedup ⟨["math.h"], "#include <math.h>\n", ["e"]⟩
    "stdio.h" "e2" false ""
  exact ⟨h1.1 (by decide), (h2.2.1 (by decide)).1, h1.2.2.1 (by decide),
    (h2.2.2.2 (by decide)).1⟩

/-- C8: rendering of one double constant: the named literal `NAN` for
NaN; `INFINITY`/`-INFINITY` for the infinities; the integer digits
followed by `.` when the value is exactly integral (the claim's
"integer literal"); maximal-precision scientific notation (the
abstract formatter `sci`) otherwise. -/
theorem C8_constant_double_cases (sci : ℚ → String) :
    constant_double sci .nan = "NAN" ∧
    constant_double sci (.inf false) = "INFINITY" ∧
    constant_double sci (.inf true) = "-INFINITY" ∧
    (∀ q : ℚ, q.den = 1 → constant_double sci (.fin q) = toString q.num ++ ".") ∧
    (∀ q : ℚ, q.den ≠ 1 → constant_double sci (.fin q) = sci q) := by
  refine ⟨rfl, rfl, rfl, ?_, ?_⟩
  · intro q hq
    have hnum : (q.num : ℚ) = q := (Rat.den_eq_one_iff q).mp hq
    have htdiv : q.num.tdiv (q.den : Int) = q.num := by
      rw [hq]; exact Int.tdiv_one q.num
    simp only [constant_double]
    rw [htdiv, if_pos hnum]
  · intro q hq
    have hcond : ¬(((q.num.tdiv (q.den : Int) : Int) : ℚ) = q) := by
      intro hcast
      exact hq (by rw [← hcast, Rat.den_intCast])
    simp only [constant_double]
    rw [if_neg hcond]

/-- Witness for C8 at the integral value 2 and the non-integral value
5/2. -/
theorem C8_constant_double_cases_witness :
    constant_double (fun _ => "2.5e+00") .nan = "NAN" ∧
    constant_double (fun _ => "2.5e+00") (.fin (2 : ℚ)) = toString (2 : ℚ).num ++ "." ∧
    constant_double (fun _ => "2.5e+00") (.fin (5 / 2 : ℚ)) = "2.5e+00" := by
  have h := C8_constant_double_cases (fun _ => "2.5e+00")
  exact ⟨h.1, h.2.2.2.1 2 (by norm_num), h.2.2.2.2 (5 / 2) (by norm_num)⟩

/-! ## Registering the same function twice (C3) -/

theorem except_bind_ok {e a b : Type} (x : Except e a) (g : a → Except e b) (r : b)
    (h : Bind.bind x g = Except.ok r) : ∃ v, x = .ok v ∧ g v = .ok r := by
  cases x with
  | error err => exact absurd h (by simp [Bind.bind, Except.bind])
  | ok v => exact ⟨v, rfl, by simpa [Bind.bind, Except.bind] using h⟩

theorem add_dependency_found (s : DepState) (f : Fn) (e : Fn × String)
    (hfind : s.added_functions.find? (fun x => x.1.fid = f.fid) = some e) :
    add_dependency s f = .ok (e.2, s) := by
  unfold add_dependency
  rw [hfind]
  rfl

/-- C3: calling `add_dependency` a second time with the same unit
(compared by identity) returns the name assigned by the first call and
performs no further emission — the state after the second call (the
added-function list, the body section, the buffer) is exactly the
state left by the first call. -/
theorem C3_add_dependency_identity (s : DepState) (f : Fn) (n1 : String) (s1 : DepState)
    (h : add_dependency s f = .ok (n1, s1)) :
    add_dependency s1 f = .ok (n1, s1) := by
  unfold add_dependency at h
  cases hfind : s.added_functions.find? (fun e => e.1.fid = f.fid) with
  | some e =>
    rw [hfind] at h
    have h' : (e.2, s) = (n1, s1) := by
      simpa [pure, Except.pure] using h
    have hn : e.2 = n1 := congrArg Prod.fst h'
    have hs : s = s1 := congrArg Prod.snd h'
    exact hn ▸ hs ▸ add_dependency_found s f e hfind
  | none =>
    rw [hfind] at h
    obtain ⟨e1, he1, h⟩ := except_bind_ok _ _ _ h
    obtain ⟨e2, he2, h⟩ := except_bind_ok _ _ _ h
    simp only [] at h
    have hmain : ∀ e3 : EmitState,
        pure ((shorthandAdd s.added_shorthands
            ("f" ++ toString s.added_functions.length)).2,
          ({ emit := { e3 with buffer := "" },
             body := s.body ++ e3.buffer,
             added_functions := s.added_functions ++
               [(f, (shorthandAdd s.added_shorthands
                 ("f" ++ toString s.added_functions.length)).2)],
             added_shorthands := (shorthandAdd s.added_shorthands
               ("f" ++ toString s.added_functions.length)).1 } : DepState)) =
          (Except.ok (n1, s1) : Except String (String × DepState)) →
        add_dependency s1 f = .ok (n1, s1) := by
      intro e3 h3
      have h' : ((shorthandAdd s.added_shorthands
          ("f" ++ toString s.added_functions.length)).2,
        ({ emit := { e3 with buffer := "" },
           body := s.body ++ e3.buffer,
           added_functions := s.added_functions ++
             [(f, (shorthandAdd s.added_shorthands
               ("f" ++ toString s.added_functions.length)).2)],
           added_shorthands := (shorthandAdd s.added_shorthands
             ("f" ++ toString s.added_functions.length)).1 } : DepState)) = (n1, s1) := by
        simpa [pure, Except.pure] using h3
      rw [Prod.mk.injEq] at h'
      obtain ⟨hn, hs⟩ := h'
      have hfind1 : s1.added_functions.find? (fun x => x.1.fid = f.fid) =
          some (f, (shorthandAdd s.added_shorthands
            ("f" ++ toString s.added_functions.length)).2) := by
        rw [← hs]
        show (s.added_functions ++ [(f, (shorthandAdd s.added_shorthands
          ("f" ++ toString s.added_functions.length)).2)]).find?
            (fun x => x.1.fid = f.fid) = _
        rw [List.find?_append, hfind]
        simp
      have hres := add_dependency_found s1 f _ hfind1
      rw [hres, ← hn]
    cases hrc : f.has_refcount with
    | false =>
      rw [hrc] at h
      simp only [Bool.false_eq_true, if_false] at h
      obtain ⟨e3, he3, h⟩ := except_bind_ok _ _ _ h
      exact hmain e3 h
    | true =>
      rw [hrc] at h
      simp only [if_true] at h
      obtain ⟨a1, ha1, h⟩ := except_bind_ok _ _ _ h
      obtain ⟨a2, ha2, h⟩ := except_bind_ok _ _ _ h
      obtain ⟨a3, ha3, h⟩ := except_bind_ok _ _ _ h
      obtain ⟨a4, ha4, h⟩ := except_bind_ok _ _ _ h
      obtain ⟨a5, ha5, h⟩ := except_bind_ok _ _ _ h
      obtain ⟨a6, ha6, h⟩ := except_bind_ok _ _ _ h
      exact hmain a6 h

/-- Witness for C3: registering a trivial unit in a fresh state and
re-registering it returns the same name and the same state. -/
theorem C3_add_dependency_identity_witness :
    ∃ n1 s1,
      add_dependency ⟨⟨"", true, 0, 2⟩, "", [], []⟩ ⟨0, "", fun _ => "", false, "", ""⟩ =
        .ok (n1, s1) ∧
      add_dependency s1 ⟨0, "", fun _ => "", false, "", ""⟩ = .ok (n1, s1) := by
  have h1 : add_dependency ⟨⟨"", true, 0, 2⟩, "", [], []⟩ ⟨0, "", fun _ => "", false, "", ""⟩ =
      .ok ("casadi_f0",
        ⟨⟨"", true, 0, 2⟩, "", [(⟨0, "", fun _ => "", false, "", ""⟩, "casadi_f0")], ["f0"]⟩) := by
    simp [add_dependency, shorthandAdd, emitStr, emitChars, print_formatted, Bind.bind,
      Except.bind, pure, Except.pure]
    exact ⟨rfl, rfl⟩
  exact ⟨_, _, h1, C3_add_dependency_identity _ _ _ _ h1⟩

/-! ## Lemmas about brace-driven indentation (C4) -/

theorem foldBrace_ok (l : List Char) (st st' : EmitState)
    (h : l.foldlM
      (fun acc c =>
        if c = '\x7b' then .ok (indent acc)
        else if c = '\x7d' then unindent acc
        else .ok acc)
      st = .ok st') :
    st'.current_indent_ + l.count '\x7d' = st.current_indent_ + l.count '\x7b' ∧
    st'.buffer = st.buffer ∧ st'.newline_ = st.newline_ ∧ st'.indent_ = st.indent_ := by
  induction l generalizing st with
  | nil =>
    simp only [List.foldlM_nil] at h
    have : st = st' := by simpa [pure, Except.pure] using h
    subst this
    simp
  | cons c cs ih =>
    rw [List.foldlM_cons] at h
    obtain ⟨st1, h1, h⟩ := except_bind_ok _ _ _ h
    by_cases hob : c = '\x7b'
    · rw [if_pos hob] at h1
      have hst1 : st1 = indent st := by simpa using h1.symm
      subst hst1
      obtain ⟨hd, hb, hn, hi⟩ := ih _ h
      subst hob
      have e1 : (indent st).current_indent_ = st.current_indent_ + 1 := rfl
      have e2 : (indent st).buffer = st.buffer := rfl
      have e3 : (indent st).newline_ = st.newline_ := rfl
      have e4 : (indent st).indent_ = st.indent_ := rfl
      rw [e1] at hd
      rw [e2] at hb
      rw [e3] at hn
      rw [e4] at hi
      refine ⟨?_, hb, hn, hi⟩
      rw [List.count_cons_self, List.count_cons_of_ne (by decide)]
      omega
    · rw [if_neg hob] at h1
      by_cases hcb : c = '\x7d'
      · rw [if_pos hcb] at h1
        unfold unindent at h1
        by_cases hz : st.current_indent_ = 0
        · rw [if_pos hz] at h1
          exact absurd h1 (by simp)
        · rw [if_neg hz] at h1
          have hst1 : st1 = { st with current_indent_ := st.current_indent_ - 1 } := by
            simpa using h1.symm
          subst hst1
          obtain ⟨hd, hb, hn, hi⟩ := ih _ h
          subst hcb
          have e1 : ({ st with current_indent_ := st.current_indent_ - 1 } :
              EmitState).current_indent_ = st.current_indent_ - 1 := rfl
          rw [e1] at hd
          refine ⟨?_, hb, hn, hi⟩
          rw [List.count_cons_self, List.count_cons_of_ne (by decide)]
          omega
      · rw [if_neg hcb] at h1
        have hst1 : st1 = st := by simpa using h1.symm
        rw [hst1] at h
        obtain ⟨hd, hb, hn, hi⟩ := ih _ h
        refine ⟨?_, hb, hn, hi⟩
        rw [List.count_cons_of_ne (fun hh => hcb hh.symm),
          List.count_cons_of_ne (fun hh => hob hh.symm)]
        omega

theorem print_formatted_ok (st : EmitState) (s : String) (st' : EmitState)
    (h : print_formatted st s = .ok st') :
    st'.current_indent_ + s.data.count '\x7d' = st.current_indent_ + s.data.count '\x7b' ∧
    st'.indent_ = st.indent_ := by
  unfold print_formatted at h
  by_cases hs : s = ""
  · rw [if_pos hs] at h
    have : st = st' := by simpa [pure, Except.pure] using h
    subst this
    subst hs
    simp
  · rw [if_neg hs] at h
    by_cases hnl : st.newline_ = true
    · rw [if_pos hnl] at h
      by_cases hneg : ((st.current_indent_ : Int) +
          (if s.data.head? = some '\x7d' then -1 else 0)) < 0
      · rw [if_pos hneg] at h
        exact absurd h (by simp [Bind.bind, Except.bind])
      · rw [if_neg hneg] at h
        obtain ⟨st1, h1, h⟩ := except_bind_ok _ _ _ h
        have hst1 : st1 = { st with
            buffer := st.buffer ++ String.mk (List.replicate
              (st.indent_ * ((st.current_indent_ : Int) +
                (if s.data.head? = some '\x7d' then -1 else 0)).toNat) ' '),
            newline_ := false } := by
          simpa using h1.symm
        obtain ⟨hd, hb, hn, hi⟩ := foldBrace_ok _ _ _ h
        subst hst1
        exact ⟨by simpa using hd, by simpa using hi⟩
    · rw [if_neg hnl] at h
      obtain ⟨st1, h1, h⟩ := except_bind_ok _ _ _ h
      have hst1 : st1 = st := by simpa using h1.symm
      rw [hst1] at h
      obtain ⟨hd, hb, hn, hi⟩ := foldBrace_ok _ _ _ h
      exact ⟨by simpa using hd, by simpa using hi⟩

theorem dropWhile_newline_head (l : List Char) (c : Char) (rest : List Char)
    (h : l.dropWhile (fun c => c ≠ '\n') = c :: rest) : c = '\n' := by
  induction l with
  | nil => simp at h
  | cons a as ih =>
    by_cases ha : a = '\n'
    · rw [List.dropWhile_cons, if_neg (by simp [ha])] at h
      injection h with h1 h2
      exact h1 ▸ ha
    · rw [List.dropWhile_cons, if_pos (by simp [ha])] at h
      exact ih h

theorem emitChars_eq_nil (st : EmitState) (l : List Char)
    (hd : l.dropWhile (fun c => c ≠ '\n') = []) :
    emitChars st l = print_formatted st (String.mk (l.takeWhile (fun c => c ≠ '\n'))) := by
  unfold emitChars
  split
  · rfl
  · rename_i c rest heq
    rw [hd] at heq
    exact absurd heq (by simp)

theorem emitChars_eq_cons (st : EmitState) (l : List Char) (c : Char) (rest : List Char)
    (hd : l.dropWhile (fun c => c ≠ '\n') = c :: rest) :
    emitChars st l = Bind.bind (print_formatted st (String.mk (l.takeWhile (fun c => c ≠ '\n'))))
      (fun st1 => emitChars { st1 with buffer := st1.buffer ++ "\n", newline_ := true } rest) := by
  conv_lhs => unfold emitChars
  split
  · rename_i heq
    rw [hd] at heq
    exact absurd heq (by simp)
  · rename_i c2 rest2 heq
    rw [hd] at heq
    injection heq with h1 h2
    subst h2
    rfl

theorem emitChars_ok : ∀ (n : Nat) (l : List Char) (st st' : EmitState), l.length ≤ n →
    emitChars st l = .ok st' →
    st'.current_indent_ + l.count '\x7d' = st.current_indent_ + l.count '\x7b' ∧
    st'.indent_ = st.indent_ := by
  intro n
  induction n with
  | zero =>
    intro l st st' hl h
    have hnil : l = [] := List.eq_nil_of_length_eq_zero (Nat.le_zero.mp hl)
    subst hnil
    rw [emitChars_eq_nil st [] (by simp)] at h
    obtain ⟨hd, hi⟩ := print_formatted_ok _ _ _ h
    simpa using ⟨hd, hi⟩
  | succ n ih =>
    intro l st st' hl h
    cases hd : l.dropWhile (fun c => c ≠ '\n') with
    | nil =>
      rw [emitChars_eq_nil st l hd] at h
      obtain ⟨hdep, hind⟩ := print_formatted_ok _ _ _ h
      have hl2 : l.takeWhile (fun c => c ≠ '\n') = l := by
        have htd := List.takeWhile_append_dropWhile (fun c => c ≠ '\n') l
        rw [hd, List.append_nil] at htd
        exact htd
      rw [show (String.mk (l.takeWhile (fun c => c ≠ '\n'))).data =
        l.takeWhile (fun c => c ≠ '\n') from rfl, hl2] at hdep
      exact ⟨hdep, hind⟩
    | cons c rest =>
      have hc : c = '\n' := dropWhile_newline_head l c rest hd
      rw [emitChars_eq_cons st l c rest hd] at h
      obtain ⟨st1, h1, h⟩ := except_bind_ok _ _ _ h
      obtain ⟨hdep1, hind1⟩ := print_formatted_ok _ _ _ h1
      have hrest : rest.length ≤ n := by
        have hle : (l.dropWhile (fun c => c ≠ '\n')).length ≤ l.length :=
          (List.dropWhile_sublist _).length_le
        rw [hd] at hle
        simp only [List.length_cons] at hle
        omega
      obtain ⟨hdep2, hind2⟩ := ih rest _ st' hrest h
      have e1 : ({ st1 with buffer := st1.buffer ++ "\n", newline_ := true } :
          EmitState).current_indent_ = st1.current_indent_ := rfl
      have e2 : ({ st1 with buffer := st1.buffer ++ "\n", newline_ := true } :
          EmitState).indent_ = st1.indent_ := rfl
      rw [e1] at hdep2
      rw [e2] at hind2
      have hsplit : l = l.takeWhile (fun c => c ≠ '\n') ++ '\n' :: rest := by
        subst hc
        rw [← hd]
        exact (List.takeWhile_append_dropWhile (fun c => c ≠ '\n') l).symm
      rw [show (String.mk (l.takeWhile (fun c => c ≠ '\n'))).data =
        l.takeWhile (fun c => c ≠ '\n') from rfl] at hdep1
      constructor
      · rw [hsplit, List.count_append, List.count_append,
          List.count_cons_of_ne (by decide), List.count_cons_of_ne (by decide)]
        omega
      · rw [hind2, hind1]

/-- C4: (i) for every emitted text whose brace characters are balanced,
the indentation depth is back at zero afterwards, so the consistency
assert at the top of `dump` passes; (ii) a line fragment beginning with
a closing-brace character is printed one indentation level below the
running depth; (iii) emitting a closing brace that would take the depth
below zero is a reported failure (an error value), never a silently
wrapped or clamped depth. -/
theorem C4_brace_indentation :
    (∀ (st : EmitState) (s : String) (st' : EmitState),
       emitStr st s = .ok st' → st.current_indent_ = 0 →
       s.data.count '\x7b' = s.data.count '\x7d' → dump_consistency st') ∧
    (∀ (st : EmitState) (s : String) (st' : EmitState),
       st.newline_ = true → s.data.head? = some '\x7d' →
       print_formatted st s = .ok st' →
       1 ≤ st.current_indent_ ∧
       st'.buffer = st.buffer ++
         String.mk (List.replicate (st.indent_ * (st.current_indent_ - 1)) ' ') ++ s) ∧
    (∀ (st : EmitState) (t : List Char), st.current_indent_ = 0 →
       ∃ e, print_formatted st (String.mk ('\x7d' :: t)) = .error e) := by
  refine ⟨?_, ?_, ?_⟩
  · intro st s st' h hci hbal
    unfold emitStr at h
    obtain ⟨hd, -⟩ := emitChars_ok s.data.length s.data st st' (Nat.le_refl _) h
    unfold dump_consistency
    omega
  · intro st s st' hnl hhead h
    have hs : ¬(s = "") := by
      intro hh
      subst hh
      simp at hhead
    unfold print_formatted at h
    rw [if_neg hs, if_pos hnl, if_pos hhead] at h
    by_cases hneg : (st.current_indent_ : Int) + (-1) < 0
    · rw [if_pos hneg] at h
      exact absurd h (by simp [Bind.bind, Except.bind])
    · rw [if_neg hneg] at h
      have hge : 1 ≤ st.current_indent_ := by omega
      refine ⟨hge, ?_⟩
      obtain ⟨st1, h1, h⟩ := except_bind_ok _ _ _ h
      have hst1 : st1 = { st with
          buffer := st.buffer ++ String.mk (List.replicate
            (st.indent_ * ((st.current_indent_ : Int) + (-1)).toNat) ' '),
          newline_ := false } := by
        simpa using h1.symm
      obtain ⟨-, hb, -, -⟩ := foldBrace_ok _ _ _ h
      have htn : ((st.current_indent_ : Int) + (-1)).toNat = st.current_indent_ - 1 := by
        omega
      rw [hb, hst1, htn]
  · intro st t hci
    have hs : ¬(String.mk ('\x7d' :: t) = "") := by
      intro hh
      have := congrArg String.data hh
      simp at this
    by_cases hnl : st.newline_ = true
    · refine ⟨"assertion failed: current_indent_+shift>=0", ?_⟩
      unfold print_formatted
      rw [if_neg hs, if_pos hnl,
        if_pos (show (String.mk ('\x7d' :: t)).data.head? = some '\x7d' from rfl),
        if_pos (show (st.current_indent_ : Int) + (-1) < 0 by rw [hci]; decide)]
      rfl
    · refine ⟨"Indentation underflow", ?_⟩
      unfold print_formatted
      rw [if_neg hs, if_neg hnl]
      show Bind.bind (Except.ok st) _ = _
      rw [show ∀ (x : EmitState) (g : EmitState → Except String EmitState),
        Bind.bind (Except.ok x) g = g x from fun x g => rfl]
      show (String.mk ('\x7d' :: t)).data.foldlM _ _ = _
      rw [show (String.mk ('\x7d' :: t)).data = '\x7d' :: t from rfl, List.foldlM_cons]
      rw [if_neg (show ¬(('\x7d' : Char) = '\x7b') by decide),
        if_pos (show ('\x7d' : Char) = '\x7d' from rfl)]
      unfold unindent
      rw [if_pos (show ({ st with buffer := st.buffer ++ String.mk ('\x7d' :: t) } :
        EmitState).current_indent_ = 0 from hci)]
      rfl

/-- Witness for C4: the fragment `"if (x) \x7b\ny;\n\x7d\n"` (braces
written as characters) emitted at depth 0 is balanced and ends at depth
0; printing `"\x7d"` at depth 1 from a line start dedents one level;
printing `"\x7d"` at depth 0 errors. -/
theorem C4_brace_indentation_witness :
    (∃ st', emitStr ⟨"", true, 0, 2⟩ (String.mk ['\x7b', '\n', '\x7d']) =
       .ok st' ∧ dump_consistency st') ∧
    (∃ st', print_formatted ⟨"", true, 1, 2⟩ (String.mk ['\x7d']) = .ok st' ∧
       st'.buffer = "" ++ String.mk (List.replicate (2 * (1 - 1)) ' ')
         ++ String.mk ['\x7d']) ∧
    (∃ e, print_formatted ⟨"", false, 0, 2⟩ (String.mk ('\x7d' :: [])) = .error e) := by
  refine ⟨?_, ?_, ?_⟩
  · have e2 : print_formatted ⟨"", true, 0, 2⟩ (String.mk ['\x7b']) =
        .ok ⟨"\x7b", false, 1, 2⟩ := by
      simp [print_formatted, indent, unindent, Bind.bind, Except.bind, pure, Except.pure,
        List.foldlM]
    have e4 : print_formatted ⟨"\x7b\n", true, 1, 2⟩ (String.mk ['\x7d']) =
        .ok ⟨"\x7b\n\x7d", false, 0, 2⟩ := by
      simp [print_formatted, indent, unindent, Bind.bind, Except.bind, pure, Except.pure,
        List.foldlM]
    have hrun : emitStr ⟨"", true, 0, 2⟩ (String.mk ['\x7b', '\n', '\x7d']) =
        .ok ⟨"\x7b\n\x7d", false, 0, 2⟩ := by
      calc emitStr ⟨"", true, 0, 2⟩ (String.mk ['\x7b', '\n', '\x7d'])
          = Bind.bind (print_formatted ⟨"", true, 0, 2⟩ (String.mk ['\x7b']))
              (fun st1 => emitChars
                { st1 with buffer := st1.buffer ++ "\n", newline_ := true } ['\x7d']) :=
            emitChars_eq_cons _ _ _ _ rfl
        _ = emitChars ⟨"\x7b\n", true, 1, 2⟩ ['\x7d'] := by rw [e2]; rfl
        _ = print_formatted ⟨"\x7b\n", true, 1, 2⟩ (String.mk ['\x7d']) :=
            emitChars_eq_nil _ _ rfl
        _ = .ok ⟨"\x7b\n\x7d", false, 0, 2⟩ := e4
    exact ⟨_, hrun, (C4_brace_indentation.1) _ _ _ hrun rfl (by decide)⟩
  · have hrun : print_formatted ⟨"", true, 1, 2⟩ (String.mk ['\x7d']) =
        .ok ⟨"\x7d", false, 0, 2⟩ := by
      simp [print_formatted, indent, unindent, Bind.bind, Except.bind, pure, Except.pure,
        List.foldlM]
    exact ⟨_, hrun, (C4_brace_indentation.2.1 ⟨"", true, 1, 2⟩ (String.mk ['\x7d'])
      ⟨"\x7d", false, 0, 2⟩ rfl rfl hrun).2⟩
  · exact (C4_brace_indentation.2.2) ⟨"", false, 0, 2⟩ [] rfl

/-! ## Lemmas about template sanitization (C7) -/

theorem findSub_singleton (c : Char) (l1 l2 : List Char) (h : c ∉ l1) :
    findSub? [c] (l1 ++ c :: l2) = some l1.length := by
  induction l1 with
  | nil =>
    rw [List.nil_append]
    unfold findSub?
    rw [if_pos (by simp [List.isPrefixOf])]
    rfl
  | cons a as ih =>
    have hac : ¬(c = a) := fun hh => h (hh ▸ List.mem_cons_self a as)
    have has : c ∉ as := fun hh => h (List.mem_cons_of_mem a hh)
    rw [List.cons_append]
    unfold findSub?
    rw [if_neg (by simp [List.isPrefixOf, hac])]
    rw [ih has]
    rfl

theorem splitLines_no_newline (l : List Char) (hne : l ≠ [])
    (hnl : ∀ c ∈ l, c ≠ '\n') : splitLines l = [l] := by
  have hdrop : l.dropWhile (fun c => c ≠ '\n') = [] :=
    List.dropWhile_eq_nil_iff.mpr (fun x hx => by simpa using hnl x hx)
  have htake : l.takeWhile (fun c => c ≠ '\n') = l := by
    have htd := List.takeWhile_append_dropWhile (fun c => c ≠ '\n') l
    rw [hdrop, List.append_nil] at htd
    exact htd
  conv_lhs => unfold splitLines
  rw [if_neg hne]
  split
  · rw [htake]
  · rename_i c rest heq
    rw [hdrop] at heq
    exact absurd heq (by simp)

theorem foldl_append_length_ge (xs : List String) :
    ∀ acc : String, acc.length ≤ (List.foldl (fun r s => r ++ s) acc xs).length := by
  induction xs with
  | nil => intro acc; simp
  | cons x xs ih =>
    intro acc
    rw [List.foldl_cons]
    calc acc.length ≤ (acc ++ x).length := by rw [String.length_append]; omega
      _ ≤ _ := ih (acc ++ x)

theorem instSuffix_eq_empty_iff (inst : List String) :
    instSuffix inst = "" ↔ ∀ s ∈ inst, s = "casadi_real" := by
  unfold instSuffix
  by_cases hall : inst.all (fun s => s = "casadi_real") = true
  · rw [if_pos hall]
    simp only [true_iff]
    intro s hs
    simpa using List.all_eq_true.mp hall s hs
  · rw [if_neg hall]
    constructor
    · intro hj
      exfalso
      have hcons : ∃ a rest, inst = a :: rest := by
        cases inst with
        | nil => exact absurd (by simp) hall
        | cons a rest => exact ⟨a, rest, rfl⟩
      obtain ⟨a, rest, hinst⟩ := hcons
      subst hinst
      have hge : ("_" ++ a).length ≤
          (String.join (List.map (fun s => "_" ++ s) (a :: rest))).length := by
        rw [show String.join (List.map (fun s => "_" ++ s) (a :: rest)) =
          List.foldl (fun r s => r ++ s) ("_" ++ a)
            (List.map (fun s => "_" ++ s) rest) from rfl]
        exact foldl_append_length_ge _ _
      rw [hj] at hge
      rw [String.length_append] at hge
      simp at hge
      exact absurd hge.1 (by decide)
    · intro hc
      exact absurd (List.all_eq_true.mpr (fun s hs => by simpa using hc s hs)) hall

/-- C7: a `// SYMBOL` directive line registers a shorthand whose name
carries the type-suffix if and only if the instantiation list contains
at least one type other than `casadi_real`; when no suffix is active,
the symbol is registered unsuffixed and no rename is recorded.  Stated
for `sanitize_source` on a source consisting of the directive line, and
for the line-processing step from any intermediate state. -/
theorem C7_sanitize_symbol_suffix (shs : List String) (inst : List String) (sym : List Char)
    (hq : '"' ∉ sym) (hnl : '\n' ∉ sym) (st : SanState) :
    (sanitize_source shs (String.mk ("// SYMBOL \"".data ++ (sym ++ ['"']))) inst true =
      ((shorthandAdd shs (sym ++ (instSuffix inst).data).asString).1, "\n")) ∧
    (processLine (instSuffix inst).data true st ("// SYMBOL \"".data ++ (sym ++ ['"'])) =
      { st with
        shorthands := (shorthandAdd st.shorthands
          (sym ++ (instSuffix inst).data).asString).1,
        rep := if (instSuffix inst).data ≠ [] then
            st.rep ++ [(sym, sym ++ (instSuffix inst).data)]
          else st.rep }) ∧
    ((instSuffix inst ≠ "") ↔ ∃ s ∈ inst, s ≠ "casadi_real") := by
  have hmain : ∀ st0 : SanState,
      processLine (instSuffix inst).data true st0 ("// SYMBOL \"".data ++ (sym ++ ['"'])) =
      { st0 with
        shorthands := (shorthandAdd st0.shorthands
          (sym ++ (instSuffix inst).data).asString).1,
        rep := if (instSuffix inst).data ≠ [] then
            st0.rep ++ [(sym, sym ++ (instSuffix inst).data)]
          else st0.rep } := by
    intro st0
    show processLine (instSuffix inst).data true st0
      (['/', '/', ' ', 'S', 'Y', 'M', 'B', 'O', 'L', ' ', '"'] ++ (sym ++ ['"'])) = _
    have c1 : "template".data.isPrefixOf
      (['/', '/', ' ', 'S', 'Y', 'M', 'B', 'O', 'L', ' ', '"'] ++ (sym ++ ['"'])) = false := rfl
    have c2 : "#define".data.isPrefixOf
      (['/', '/', ' ', 'S', 'Y', 'M', 'B', 'O', 'L', ' ', '"'] ++ (sym ++ ['"'])) = false := rfl
    have c3 : "#undef".data.isPrefixOf
      (['/', '/', ' ', 'S', 'Y', 'M', 'B', 'O', 'L', ' ', '"'] ++ (sym ++ ['"'])) = false := rfl
    have c5 : "// SYMBOL".data.isPrefixOf
      (['/', '/', ' ', 'S', 'Y', 'M', 'B', 'O', 'L', ' ', '"'] ++ (sym ++ ['"'])) = true := rfl
    have c4 : ¬((['/', '/', ' ', 'S', 'Y', 'M', 'B', 'O', 'L', ' ', '"'] ++ (sym ++ ['"'])) =
        "inline".data) := by
      intro hh
      have h5 : ((['/', '/', ' ', 'S', 'Y', 'M', 'B', 'O', 'L', ' ', '"'] ++
        (sym ++ ['"']))).head? = some '/' := rfl
      rw [hh] at h5
      exact absurd h5 (by decide)
    have hn1 : strFind (['/', '/', ' ', 'S', 'Y', 'M', 'B', 'O', 'L', ' ', '"'] ++
        (sym ++ ['"'])) ['"'] 0 = some 10 := by
      unfold strFind
      rw [List.drop_zero]
      rw [show (['/', '/', ' ', 'S', 'Y', 'M', 'B', 'O', 'L', ' ', '"'] ++ (sym ++ ['"'])) =
        ['/', '/', ' ', 'S', 'Y', 'M', 'B', 'O', 'L', ' '] ++ '"' :: (sym ++ ['"']) from rfl]
      rw [findSub_singleton '"' _ _ (by decide)]
      rfl
    have hdrop11 : (['/', '/', ' ', 'S', 'Y', 'M', 'B', 'O', 'L', ' ', '"'] ++
        (sym ++ ['"'])).drop 11 = sym ++ ['"'] := by
      rw [show (11 : Nat) =
        (['/', '/', ' ', 'S', 'Y', 'M', 'B', 'O', 'L', ' ', '"'] : List Char).length from rfl]
      exact List.drop_left _ _
    have hn2 : strFind (['/', '/', ' ', 'S', 'Y', 'M', 'B', 'O', 'L', ' ', '"'] ++
        (sym ++ ['"'])) ['"'] 11 = some (sym.length + 11) := by
      unfold strFind
      rw [hdrop11]
      rw [show sym ++ ['"'] = sym ++ '"' :: [] from rfl, findSub_singleton '"' sym [] hq]
      rfl
    have hsym : ((['/', '/', ' ', 'S', 'Y', 'M', 'B', 'O', 'L', ' ', '"'] ++
        (sym ++ ['"'])).drop 11).take (sym.length + 11 - 10 - 1) = sym := by
      rw [hdrop11, show sym.length + 11 - 10 - 1 = sym.length from by omega]
      exact List.take_left _ _
    unfold processLine
    rw [c1, c2, c3, c5]
    simp only [Bool.false_eq_true, if_false, if_true, if_neg c4]
    rw [hn1]
    simp only [Option.getD_some, Nat.reduceAdd]
    rw [hn2]
    simp only [Option.getD_some, Nat.reduceAdd]
    rw [hsym]
  refine ⟨?_, hmain st, ?_⟩
  · have hne : ("// SYMBOL \"".data ++ (sym ++ ['"'])) ≠ [] := by
      intro hh
      have := congrArg List.length hh
      simp at this
    have hnonl : ∀ c ∈ ("// SYMBOL \"".data ++ (sym ++ ['"'])), c ≠ '\n' := by
      intro c hc hceq
      subst hceq
      rcases List.mem_append.mp hc with hcn | hcn
      · exact absurd hcn (by decide)
      · rcases List.mem_append.mp hcn with hcn | hcn
        · exact hnl hcn
        · exact absurd hcn (by decide)
    unfold sanitize_source
    rw [show (String.mk ("// SYMBOL \"".data ++ (sym ++ ['"']))).data =
      ("// SYMBOL \"".data ++ (sym ++ ['"'])) from rfl]
    rw [splitLines_no_newline _ hne hnonl]
    simp only []
    rw [List.foldl_cons, List.foldl_nil]
    rw [hmain ⟨(inst.enum.map (fun p => (("T" ++ toString (p.1 + 1)).data, p.2.data))), shs, []⟩]
    rfl
  · constructor
    · intro hne
      by_contra hc
      push_neg at hc
      exact hne ((instSuffix_eq_empty_iff inst).mpr (fun s hs => hc s hs))
    · rintro ⟨s, hs, hsne⟩ he
      exact hsne (((instSuffix_eq_empty_iff inst).mp he) s hs)

/-- Witness for C7: the directive `// SYMBOL "fill"` specialized with
the non-default instantiation `["int"]` from an empty state. -/
theorem C7_sanitize_symbol_suffix_witness :
    (sanitize_source []
        (String.mk ("// SYMBOL \"".data ++ (['f', 'i', 'l', 'l'] ++ ['"']))) ["int"] true =
      ((shorthandAdd []
        (['f', 'i', 'l', 'l'] ++ (instSuffix ["int"]).data).asString).1, "\n")) ∧
    (processLine (instSuffix ["int"]).data true ⟨[], [], []⟩
        ("// SYMBOL \"".data ++ (['f', 'i', 'l', 'l'] ++ ['"'])) =
      { (⟨[], [], []⟩ : SanState) with
        shorthands := (shorthandAdd ([] : List String)
          (['f', 'i', 'l', 'l'] ++ (instSuffix ["int"]).data).asString).1,
        rep := if (instSuffix ["int"]).data ≠ [] then
            ([] : List (List Char × List Char)) ++
              [(['f', 'i', 'l', 'l'], ['f', 'i', 'l', 'l'] ++ (instSuffix ["int"]).data)]
          else [] }) ∧
    ((instSuffix ["int"] ≠ "") ↔ ∃ s ∈ ["int"], s ≠ "casadi_real") :=
  C7_sanitize_symbol_suffix [] ["int"] ['f', 'i', 'l', 'l'] (by decide) (by decide) ⟨[], [], []⟩

/-! ## Lemmas about the auxiliary resolver (C2, C6) -/

theorem Grows_refl (s : AuxState) : Grows s s :=
  ⟨⟨[], by simp⟩, [], by simp, by simp, by simp⟩

theorem Grows_trans {s1 s2 s3 : AuxState} (h12 : Grows s1 s2) (h23 : Grows s2 s3) :
    Grows s1 s3 := by
  obtain ⟨⟨d1, hd1⟩, e1, he1, hn1, hm1⟩ := h12
  obtain ⟨⟨d2, hd2⟩, e2, he2, hn2, hm2⟩ := h23
  refine ⟨⟨d1 ++ d2, by rw [hd2, hd1, List.append_assoc]⟩,
    e1 ++ e2, by rw [he2, he1, List.append_assoc], ?_, ?_⟩
  · rw [List.map_append, List.nodup_append]
    refine ⟨hn1, hn2, ?_⟩
    intro t ht1 ht2
    exact (hm2 t ht2).1 ((hm1 t ht1).2)
  · intro t ht
    rw [List.map_append, List.mem_append] at ht
    rcases ht with ht | ht
    · refine ⟨(hm1 t ht).1, ?_⟩
      rw [hd2]
      exact List.mem_append_left _ ((hm1 t ht).2)
    · refine ⟨?_, (hm2 t ht).2⟩
      intro hmem
      exact (hm2 t ht).1 (by rw [hd1]; exact List.mem_append_left _ hmem)

/-- The shape of every non-duplicate `switch` case of `add_auxiliary`:
record the request, let the prerequisite calls grow the state, then
append the chunk for the request. -/
theorem emit_step (tmpl : Auxiliary → String) (s sk : AuxState) (f : Auxiliary)
    (inst inst2 : List String) (tpl pre post : String)
    (hmem : (f, inst) ∉ s.added_auxiliaries)
    (hg : Grows { s with added_auxiliaries := s.added_auxiliaries ++ [(f, inst)] } sk) :
    Grows s (appendChunk sk (f, inst) tpl inst2 pre post) ∧
    (f, inst) ∈ (appendChunk sk (f, inst) tpl inst2 pre post).auxiliaries.map AuxChunk.tag := by
  obtain ⟨⟨d, hd⟩, ext, hext, hnd, hm⟩ := hg
  have hd' : sk.added_auxiliaries = s.added_auxiliaries ++ ((f, inst) :: d) := by
    rw [hd]
    show (s.added_auxiliaries ++ [(f, inst)]) ++ d = _
    rw [List.append_assoc]
    rfl
  have hfi : (f, inst) ∈ sk.added_auxiliaries := by
    rw [hd']
    exact List.mem_append_right _ (List.mem_cons_self _ _)
  have haux : (appendChunk sk (f, inst) tpl inst2 pre post).auxiliaries =
      s.auxiliaries ++ (ext ++
        [⟨(f, inst), pre ++ (sanitize_source sk.added_shorthands tpl inst2 true).2 ++ post⟩]) := by
    show sk.auxiliaries ++ _ = _
    rw [hext]
    show (s.auxiliaries ++ ext) ++ _ = _
    rw [List.append_assoc]
  have hadded : (appendChunk sk (f, inst) tpl inst2 pre post).added_auxiliaries =
      sk.added_auxiliaries := rfl
  constructor
  · refine ⟨⟨(f, inst) :: d, by rw [hadded, hd']⟩,
      ext ++ [⟨(f, inst), pre ++ (sanitize_source sk.added_shorthands tpl inst2 true).2 ++ post⟩],
      haux, ?_, ?_⟩
    · rw [List.map_append, List.nodup_append]
      refine ⟨hnd, by simp, ?_⟩
      intro t ht1 ht2
      simp only [List.map_cons, List.map_nil, List.mem_singleton] at ht2
      subst ht2
      exact (hm _ ht1).1 (List.mem_append_right _ (List.mem_singleton.mpr rfl))
    · intro t ht
      rw [List.map_append, List.mem_append] at ht
      rcases ht with ht | ht
      · refine ⟨?_, ?_⟩
        · intro hmem2
          exact (hm t ht).1 (List.mem_append_left _ hmem2)
        · rw [hadded, hd']
          have := (hm t ht).2
          rw [hd'] at this
          exact this
      · simp only [List.map_cons, List.map_nil, List.mem_singleton] at ht
        subst ht
        exact ⟨hmem, by rw [hadded]; exact hfi⟩
  · rw [haux, List.map_append, List.mem_append]
    right
    rw [List.map_append, List.mem_append]
    right
    simp

/-- Master specification of `add_auxiliary`: every run only appends,
each appended chunk's tag is newly recorded (so no tag is ever emitted
twice), a fresh request gets a chunk tagged with it, and a duplicate
request is a silent no-op. -/
theorem add_auxiliary_spec (tmpl : Auxiliary → String) :
    ∀ (n : Nat) (f : Auxiliary), auxRank f < n → ∀ (inst : List String) (s : AuxState),
    Grows s (add_auxiliary tmpl s f inst) ∧
    ((f, inst) ∉ s.added_auxiliaries →
      (f, inst) ∈ (add_auxiliary tmpl s f inst).auxiliaries.map AuxChunk.tag) ∧
    ((f, inst) ∈ s.added_auxiliaries → add_auxiliary tmpl s f inst = s) := by
  intro n
  induction n with
  | zero => intro f hf; exact absurd hf (Nat.not_lt_zero _)
  | succ n ihn =>
    intro f hf inst s
    by_cases hmem : (f, inst) ∈ s.added_auxiliaries
    · have heq : add_auxiliary tmpl s f inst = s := by
        unfold add_auxiliary
        rw [if_pos hmem]
      refine ⟨by rw [heq]; exact Grows_refl s, fun hn2 => absurd hmem hn2, fun _ => heq⟩
    · unfold add_auxiliary
      rw [if_neg hmem]
      cases f with
      | AUX_COPY =>
        refine ⟨?_, fun _ => ?_, fun hm => absurd hm hmem⟩
        · exact (emit_step tmpl s _ _ inst inst _ _ _ hmem (Grows_refl _)).1
        · exact (emit_step tmpl s _ _ inst inst _ _ _ hmem (Grows_refl _)).2
      | AUX_SWAP =>
        refine ⟨?_, fun _ => ?_, fun hm => absurd hm hmem⟩
        · exact (emit_step tmpl s _ _ inst inst _ _ _ hmem (Grows_refl _)).1
        · exact (emit_step tmpl s _ _ inst inst _ _ _ hmem (Grows_refl _)).2
      | AUX_SCAL =>
        refine ⟨?_, fun _ => ?_, fun hm => absurd hm hmem⟩
        · exact (emit_step tmpl s _ _ inst inst _ _ _ hmem (Grows_refl _)).1
        · exact (emit_step tmpl s _ _ inst inst _ _ _ hmem (Grows_refl _)).2
      | AUX_AXPY =>
        refine ⟨?_, fun _ => ?_, fun hm => absurd hm hmem⟩
        · exact (emit_step tmpl s _ _ inst inst _ _ _ hmem (Grows_refl _)).1
        · exact (emit_step tmpl s _ _ inst inst _ _ _ hmem (Grows_refl _)).2
      | AUX_DOT =>
        refine ⟨?_, fun _ => ?_, fun hm => absurd hm hmem⟩
        · exact (emit_step tmpl s _ _ inst inst _ _ _ hmem (Grows_refl _)).1
        · exact (emit_step tmpl s _ _ inst inst _ _ _ hmem (Grows_refl _)).2
      | AUX_BILIN =>
        refine ⟨?_, fun _ => ?_, fun hm => absurd hm hmem⟩
        · exact (emit_step tmpl s _ _ inst inst _ _ _ hmem (Grows_refl _)).1
        · exact (emit_step tmpl s _ _ inst inst _ _ _ hmem (Grows_refl _)).2
      | AUX_RANK1 =>
        refine ⟨?_, fun _ => ?_, fun hm => absurd hm hmem⟩
        · exact (emit_step tmpl s _ _ inst inst _ _ _ hmem (Grows_refl _)).1
        · exact (emit_step tmpl s _ _ inst inst _ _ _ hmem (Grows_refl _)).2
      | AUX_IAMAX =>
        refine ⟨?_, fun _ => ?_, fun hm => absurd hm hmem⟩
        · exact (emit_step tmpl s _ _ inst inst _ _ _ hmem (Grows_refl _)).1
        · exact (emit_step tmpl s _ _ inst inst _ _ _ hmem (Grows_refl _)).2
      | AUX_INTERPN =>
        refine ⟨?_, fun _ => ?_, fun hm => absurd hm hmem⟩
        · exact (emit_step tmpl s _ _ inst inst _ _ _ hmem
            (Grows_trans (ihn AUX_INTERPN_WEIGHTS (by simp [auxRank] at hf ⊢; omega) defaultInst _).1
            (Grows_trans (ihn AUX_INTERPN_INTERPOLATE (by simp [auxRank] at hf ⊢; omega) defaultInst _).1
            (Grows_trans (ihn AUX_FLIP (by simp [auxRank] at hf ⊢; omega) [] _).1
            (Grows_trans (ihn AUX_FILL (by simp [auxRank] at hf ⊢; omega) defaultInst _).1
            (ihn AUX_FILL (by simp [auxRank] at hf ⊢; omega) ["int"] _).1))))).1
        · exact (emit_step tmpl s _ _ inst inst _ _ _ hmem
            (Grows_trans (ihn AUX_INTERPN_WEIGHTS (by simp [auxRank] at hf ⊢; omega) defaultInst _).1
            (Grows_trans (ihn AUX_INTERPN_INTERPOLATE (by simp [auxRank] at hf ⊢; omega) defaultInst _).1
            (Grows_trans (ihn AUX_FLIP (by simp [auxRank] at hf ⊢; omega) [] _).1
            (Grows_trans (ihn AUX_FILL (by simp [auxRank] at hf ⊢; omega) defaultInst _).1
            (ihn AUX_FILL (by simp [auxRank] at hf ⊢; omega) ["int"] _).1))))).2
      | AUX_INTERPN_GRAD =>
        refine ⟨?_, fun _ => ?_, fun hm => absurd hm hmem⟩
        · exact (emit_step tmpl s _ _ inst inst _ _ _ hmem
            (ihn AUX_INTERPN (by simp [auxRank] at hf ⊢; omega) defaultInst _).1).1
        · exact (emit_step tmpl s _ _ inst inst _ _ _ hmem
            (ihn AUX_INTERPN (by simp [auxRank] at hf ⊢; omega) defaultInst _).1).2
      | AUX_DE_BOOR =>
        refine ⟨?_, fun _ => ?_, fun hm => absurd hm hmem⟩
        · exact (emit_step tmpl s _ _ inst inst _ _ _ hmem (Grows_refl _)).1
        · exact (emit_step tmpl s _ _ inst inst _ _ _ hmem (Grows_refl _)).2
      | AUX_ND_BOOR_EVAL =>
        refine ⟨?_, fun _ => ?_, fun hm => absurd hm hmem⟩
        · exact (emit_step tmpl s _ _ inst inst _ _ _ hmem
            (Grows_trans (ihn AUX_DE_BOOR (by simp [auxRank] at hf ⊢; omega) defaultInst _).1
            (Grows_trans (ihn AUX_FILL (by simp [auxRank] at hf ⊢; omega) defaultInst _).1
            (Grows_trans (ihn AUX_FILL (by simp [auxRank] at hf ⊢; omega) ["int"] _).1
            (ihn AUX_LOW (by simp [auxRank] at hf ⊢; omega) defaultInst _).1)))).1
        · exact (emit_step tmpl s _ _ inst inst _ _ _ hmem
            (Grows_trans (ihn AUX_DE_BOOR (by simp [auxRank] at hf ⊢; omega) defaultInst _).1
            (Grows_trans (ihn AUX_FILL (by simp [auxRank] at hf ⊢; omega) defaultInst _).1
            (Grows_trans (ihn AUX_FILL (by simp [auxRank] at hf ⊢; omega) ["int"] _).1
            (ihn AUX_LOW (by simp [auxRank] at hf ⊢; omega) defaultInst _).1)))).2
      | AUX_FLIP =>
        refine ⟨?_, fun _ => ?_, fun hm => absurd hm hmem⟩
        · exact (emit_step tmpl s _ _ inst inst _ _ _ hmem (Grows_refl _)).1
        · exact (emit_step tmpl s _ _ inst inst _ _ _ hmem (Grows_refl _)).2
      | AUX_LOW =>
        refine ⟨?_, fun _ => ?_, fun hm => absurd hm hmem⟩
        · exact (emit_step tmpl s _ _ inst inst _ _ _ hmem (Grows_refl _)).1
        · exact (emit_step tmpl s _ _ inst inst _ _ _ hmem (Grows_refl _)).2
      | AUX_INTERPN_WEIGHTS =>
        refine ⟨?_, fun _ => ?_, fun hm => absurd hm hmem⟩
        · exact (emit_step tmpl s _ _ inst inst _ _ _ hmem
            (ihn AUX_LOW (by simp [auxRank] at hf ⊢; omega) defaultInst _).1).1
        · exact (emit_step tmpl s _ _ inst inst _ _ _ hmem
            (ihn AUX_LOW (by simp [auxRank] at hf ⊢; omega) defaultInst _).1).2
      | AUX_INTERPN_INTERPOLATE =>
        refine ⟨?_, fun _ => ?_, fun hm => absurd hm hmem⟩
        · exact (emit_step tmpl s _ _ inst inst _ _ _ hmem (Grows_refl _)).1
        · exact (emit_step tmpl s _ _ inst inst _ _ _ hmem (Grows_refl _)).2
      | AUX_NORM_1 =>
        refine ⟨?_, fun _ => ?_, fun hm => absurd hm hmem⟩
        · exact (emit_step tmpl s _ _ inst inst _ _ _ hmem (Grows_refl _)).1
        · exact (emit_step tmpl s _ _ inst inst _ _ _ hmem (Grows_refl _)).2
      | AUX_NORM_2 =>
        refine ⟨?_, fun _ => ?_, fun hm => absurd hm hmem⟩
        · exact (emit_step tmpl s _ _ inst inst _ _ _ hmem (Grows_refl _)).1
        · exact (emit_step tmpl s _ _ inst inst _ _ _ hmem (Grows_refl _)).2
      | AUX_NORM_INF =>
        refine ⟨?_, fun _ => ?_, fun hm => absurd hm hmem⟩
        · exact (emit_step tmpl s _ _ inst inst _ _ _ hmem (Grows_refl _)).1
        · exact (emit_step tmpl s _ _ inst inst _ _ _ hmem (Grows_refl _)).2
      | AUX_FILL =>
        refine ⟨?_, fun _ => ?_, fun hm => absurd hm hmem⟩
        · exact (emit_step tmpl s _ _ inst inst _ _ _ hmem (Grows_refl _)).1
        · exact (emit_step tmpl s _ _ inst inst _ _ _ hmem (Grows_refl _)).2
      | AUX_MV =>
        refine ⟨?_, fun _ => ?_, fun hm => absurd hm hmem⟩
        · exact (emit_step tmpl s _ _ inst inst _ _ _ hmem (Grows_refl _)).1
        · exact (emit_step tmpl s _ _ inst inst _ _ _ hmem (Grows_refl _)).2
      | AUX_MV_DENSE =>
        refine ⟨?_, fun _ => ?_, fun hm => absurd hm hmem⟩
        · exact (emit_step tmpl s _ _ inst inst _ _ _ hmem (Grows_refl _)).1
        · exact (emit_step tmpl s _ _ inst inst _ _ _ hmem (Grows_refl _)).2
      | AUX_MTIMES =>
        refine ⟨?_, fun _ => ?_, fun hm => absurd hm hmem⟩
        · exact (emit_step tmpl s _ _ inst inst _ _ _ hmem (Grows_refl _)).1
        · exact (emit_step tmpl s _ _ inst inst _ _ _ hmem (Grows_refl _)).2
      | AUX_PROJECT =>
        refine ⟨?_, fun _ => ?_, fun hm => absurd hm hmem⟩
        · exact (emit_step tmpl s _ _ inst inst _ _ _ hmem (Grows_refl _)).1
        · exact (emit_step tmpl s _ _ inst inst _ _ _ hmem (Grows_refl _)).2
      | AUX_DENSIFY =>
        refine ⟨?_, fun _ => ?_, fun hm => absurd hm hmem⟩
        · exact (emit_step tmpl s _ _ inst _ _ _ _ hmem
            (ihn AUX_FILL (by simp [auxRank] at hf ⊢; omega) defaultInst _).1).1
        · exact (emit_step tmpl s _ _ inst _ _ _ _ hmem
            (ihn AUX_FILL (by simp [auxRank] at hf ⊢; omega) defaultInst _).1).2
      | AUX_TRANS =>
        refine ⟨?_, fun _ => ?_, fun hm => absurd hm hmem⟩
        · exact (emit_step tmpl s _ _ inst inst _ _ _ hmem (Grows_refl _)).1
        · exact (emit_step tmpl s _ _ inst inst _ _ _ hmem (Grows_refl _)).2
      | AUX_TO_MEX =>
        refine ⟨?_, fun _ => ?_, fun hm => absurd hm hmem⟩
        · exact (emit_step tmpl s _ _ inst inst _ _ _ hmem (Grows_refl _)).1
        · exact (emit_step tmpl s _ _ inst inst _ _ _ hmem (Grows_refl _)).2
      | AUX_FROM_MEX =>
        refine ⟨?_, fun _ => ?_, fun hm => absurd hm hmem⟩
        · exact (emit_step tmpl s _ _ inst inst _ _ _ hmem
            (ihn AUX_FILL (by simp [auxRank] at hf ⊢; omega) defaultInst _).1).1
        · exact (emit_step tmpl s _ _ inst inst _ _ _ hmem
            (ihn AUX_FILL (by simp [auxRank] at hf ⊢; omega) defaultInst _).1).2
      | AUX_FINITE_DIFF =>
        refine ⟨?_, fun _ => ?_, fun hm => absurd hm hmem⟩
        · exact (emit_step tmpl s _ _ inst inst _ _ _ hmem (Grows_refl _)).1
        · exact (emit_step tmpl s _ _ inst inst _ _ _ hmem (Grows_refl _)).2

theorem AuxInv_of_grows {s s' : AuxState} (hinv : AuxInv s) (hg : Grows s s') :
    AuxInv s' := by
  obtain ⟨⟨d, hd⟩, ext, hext, hnd, hm⟩ := hg
  obtain ⟨invnd, invmem⟩ := hinv
  constructor
  · rw [hext, List.map_append, List.nodup_append]
    refine ⟨invnd, hnd, ?_⟩
    intro t ht1 ht2
    exact (hm t ht2).1 (invmem t ht1)
  · intro t ht
    rw [hext, List.map_append, List.mem_append] at ht
    rcases ht with ht | ht
    · rw [hd]
      exact List.mem_append_left _ (invmem t ht)
    · exact (hm t ht).2

/-- C2: for every auxiliary kind and instantiation list, each
(kind, instantiation) pair is appended to the auxiliary section at most
once over the Emitter's lifetime (`AuxInv`, the no-duplicate-tags
invariant, is preserved by every call); calling `add_auxiliary` again
with an identical pair is a silent no-op leaving the state — auxiliary
section and emitted-pair record included — unchanged; and a same kind
with a different, not-yet-recorded instantiation list is emitted anew. -/
theorem C2_add_auxiliary_once (tmpl : Auxiliary → String) (f : Auxiliary)
    (inst inst' : List String) (s : AuxState) :
    ((f, inst) ∈ s.added_auxiliaries → add_auxiliary tmpl s f inst = s) ∧
    (AuxInv s → AuxInv (add_auxiliary tmpl s f inst)) ∧
    ((f, inst') ∉ s.added_auxiliaries →
      (f, inst') ∈ (add_auxiliary tmpl s f inst').auxiliaries.map AuxChunk.tag) := by
  refine ⟨?_, ?_, ?_⟩
  · exact (add_auxiliary_spec tmpl (auxRank f + 1) f (Nat.lt_succ_self _) inst s).2.2
  · intro hinv
    exact AuxInv_of_grows hinv
      (add_auxiliary_spec tmpl (auxRank f + 1) f (Nat.lt_succ_self _) inst s).1
  · exact (add_auxiliary_spec tmpl (auxRank f + 1) f (Nat.lt_succ_self _) inst' s).2.1

/-- Witness for C2: with a trivial template map, a pair already in the
record is a no-op, the invariant is preserved from a state holding one
recorded pair, and a fresh instantiation of the same kind gets its own
chunk. -/
theorem C2_add_auxiliary_once_witness :
    (add_auxiliary (fun _ => "") ⟨[(Auxiliary.AUX_COPY, [])], [], []⟩ Auxiliary.AUX_COPY [] =
      ⟨[(Auxiliary.AUX_COPY, [])], [], []⟩) ∧
    AuxInv (add_auxiliary (fun _ => "") ⟨[(Auxiliary.AUX_COPY, [])], [], []⟩
      Auxiliary.AUX_COPY []) ∧
    ((Auxiliary.AUX_COPY, ["int"]) ∈
      (add_auxiliary (fun _ => "") ⟨[(Auxiliary.AUX_COPY, [])], [], []⟩
        Auxiliary.AUX_COPY ["int"]).auxiliaries.map AuxChunk.tag) := by
  have h := C2_add_auxiliary_once (fun _ => "") Auxiliary.AUX_COPY [] ["int"]
    ⟨[(Auxiliary.AUX_COPY, [])], [], []⟩
  refine ⟨h.1 (by decide), h.2.1 ?_, h.2.2 (by decide)⟩
  unfold AuxInv
  decide

/-- C6: requesting the densify kind with a single-element instantiation
first emits the fill prerequisite, then the densify routine specialized
with the element duplicated into a pair; repeating the identical
request is a no-op, and a further densify request with a different
element re-emits densify but not fill, so fill appears exactly once. -/
theorem C6_densify_fill_prereq (tmpl : Auxiliary → String) (t t' : String)
    (hne : t' ≠ t) :
    (add_auxiliary tmpl auxInit Auxiliary.AUX_DENSIFY [t] =
      ⟨[(Auxiliary.AUX_DENSIFY, [t]), (Auxiliary.AUX_FILL, defaultInst)],
       [⟨(Auxiliary.AUX_FILL, defaultInst),
          (sanitize_source [] (tmpl Auxiliary.AUX_FILL) defaultInst true).2⟩,
        ⟨(Auxiliary.AUX_DENSIFY, [t]),
          (sanitize_source (sanitize_source [] (tmpl Auxiliary.AUX_FILL) defaultInst true).1
            (tmpl Auxiliary.AUX_DENSIFY) [t, t] true).2⟩],
       (sanitize_source (sanitize_source [] (tmpl Auxiliary.AUX_FILL) defaultInst true).1
         (tmpl Auxiliary.AUX_DENSIFY) [t, t] true).1⟩) ∧
    (add_auxiliary tmpl (add_auxiliary tmpl auxInit Auxiliary.AUX_DENSIFY [t])
        Auxiliary.AUX_DENSIFY [t] =
      add_auxiliary tmpl auxInit Auxiliary.AUX_DENSIFY [t]) ∧
    ((add_auxiliary tmpl (add_auxiliary tmpl auxInit Auxiliary.AUX_DENSIFY [t])
        Auxiliary.AUX_DENSIFY [t']).auxiliaries.map AuxChunk.tag =
      [(Auxiliary.AUX_FILL, defaultInst), (Auxiliary.AUX_DENSIFY, [t]),
       (Auxiliary.AUX_DENSIFY, [t'])]) := by
  have h1 : add_auxiliary tmpl auxInit Auxiliary.AUX_DENSIFY [t] =
      ⟨[(Auxiliary.AUX_DENSIFY, [t]), (Auxiliary.AUX_FILL, defaultInst)],
       [⟨(Auxiliary.AUX_FILL, defaultInst),
          (sanitize_source [] (tmpl Auxiliary.AUX_FILL) defaultInst true).2⟩,
        ⟨(Auxiliary.AUX_DENSIFY, [t]),
          (sanitize_source (sanitize_source [] (tmpl Auxiliary.AUX_FILL) defaultInst true).1
            (tmpl Auxiliary.AUX_DENSIFY) [t, t] true).2⟩],
       (sanitize_source (sanitize_source [] (tmpl Auxiliary.AUX_FILL) defaultInst true).1
         (tmpl Auxiliary.AUX_DENSIFY) [t, t] true).1⟩ := by
    simp [add_auxiliary, appendChunk, auxInit, defaultInst]
  refine ⟨h1, ?_, ?_⟩
  · rw [h1]
    simp [add_auxiliary]
  · rw [h1]
    simp [add_auxiliary, appendChunk, defaultInst, hne]

/-- Witness for C6: with a trivial template map and the concrete types
double and float, the repeated densify request for double is a no-op
and the subsequent float request yields the fill chunk once followed by
the two densify chunks. -/
theorem C6_densify_fill_prereq_witness :
    ("float" : String) ≠ "double" ∧
    (add_auxiliary (fun _ => "")
        (add_auxiliary (fun _ => "") auxInit Auxiliary.AUX_DENSIFY ["double"])
        Auxiliary.AUX_DENSIFY ["double"] =
      add_auxiliary (fun _ => "") auxInit Auxiliary.AUX_DENSIFY ["double"]) ∧
    ((add_auxiliary (fun _ => "")
        (add_auxiliary (fun _ => "") auxInit Auxiliary.AUX_DENSIFY ["double"])
        Auxiliary.AUX_DENSIFY ["float"]).auxiliaries.map AuxChunk.tag =
      [(Auxiliary.AUX_FILL, defaultInst), (Auxiliary.AUX_DENSIFY, ["double"]),
       (Auxiliary.AUX_DENSIFY, ["float"])]) :=
  ⟨by decide,
   (C6_densify_fill_prereq (fun _ => "") "double" "float" (by decide)).2.1,
   (C6_densify_fill_prereq (fun _ => "") "double" "float" (by decide)).2.2⟩

end CasadiCG
